import Mathlib

/-!
Verification of the amortization engine of the mortgage-calculator
repository.

The canonical engine is `calculate_monthly_payment` in `logic.py`; the
integer-truncating variant lives in `mortgage_calculator/logic.py`.  Both
are shallowly embedded below.  Python float arithmetic is modelled as
exact rational arithmetic over `ℚ`; Python `assert` failures are modelled
as `Except.error .invalidInput` and float division by zero as
`Except.error .divByZero`.  The engine loop is embedded with an
instrumented per-year record (`YearLog`) that stores the values the
source computes at year granularity (the applied rate, the annuity
payment, the accumulated refinance rate increase before and after the
year, the starting balance and remaining-month count); the emitted
schedule is the concatenation of the per-year row lists, exactly as the
source appends rows to `hist`.
-/

namespace Mortgage

/-- Errors observable at the engine boundary: a failed `assert`
(`invalidInput`) or a float division by zero (`divByZero`). -/
inductive EngineError where
  | invalidInput
  | divByZero
deriving DecidableEq

/-- The parameter list of `calculate_monthly_payment` in `logic.py`,
field for field (year/month counts as naturals, money and rates as `ℚ`). -/
structure LoanConfig where
  loan : ℚ
  years : ℕ
  interest_rates_100 : List ℚ
  minimum_monthly_payment : ℚ
  additional_payment : ℚ
  refinance : Bool
  refinance_every_x_years : ℕ
  refinance_when_principal_hit : ℚ
  refinance_interest_will_increase : ℚ
  topup : Bool
  topup_every_x_month : ℕ
  topup_amount : ℚ
deriving DecidableEq

/-- One emitted row of `hist`, one field per key of the dict. -/
structure Row where
  loan_start : ℚ
  interest_rate_yearly : ℚ
  total : ℚ
  principal : ℚ
  interest : ℚ
  minimum_monthly_payment : ℚ
  additional_payment : ℚ
  topup : ℚ
  loan_end : ℚ
deriving DecidableEq

/-- Default row, used only as the default of `List.getD`/`List.getLastD`. -/
def dRow : Row := ⟨0, 0, 0, 0, 0, 0, 0, 0, 0⟩

instance : Inhabited Row := ⟨dRow⟩

/-- The `assert` block at the top of `calculate_monthly_payment`
(`logic.py`): rates non-empty and positive, threshold strictly below the
loan, cycle/rate-count checks when refinancing, positivity checks when
topping up. -/
def codeValid (cfg : LoanConfig) : Prop :=
  cfg.interest_rates_100 ≠ [] ∧
  (∀ r ∈ cfg.interest_rates_100, 0 < r) ∧
  cfg.refinance_when_principal_hit < cfg.loan ∧
  (cfg.refinance = true →
    0 < cfg.refinance_every_x_years ∧
    cfg.refinance_every_x_years ≤ cfg.interest_rates_100.length) ∧
  (cfg.topup = true → 0 < cfg.topup_every_x_month ∧ 0 < cfg.topup_amount)

instance (cfg : LoanConfig) : Decidable (codeValid cfg) := by
  unfold codeValid; exact inferInstance

/-- Rate-list extension of `logic.py`: when refinancing, the first
`refinance_every_x_years` rates are repeated `years / cycle + 1` times
and the result is truncated to `years` entries; otherwise the supplied
list is used unchanged. -/
def ratesExtended (cfg : LoanConfig) : List ℚ :=
  if cfg.refinance then
    ((List.replicate (cfg.years / cfg.refinance_every_x_years + 1)
        (cfg.interest_rates_100.take cfg.refinance_every_x_years)).flatten).take cfg.years
  else cfg.interest_rates_100

/-- Year-`i` nominal rate selection of `logic.py`: entry `i` while the
index is in range, else the last entry. -/
def yearNominal (rs : List ℚ) (i : ℕ) : ℚ :=
  if i ≤ rs.length - 1 then rs.getD i 0 else rs.getLastD 0

/-- The payoff-clamp cascade of the inner loop of `logic.py`, acting on
the four balance-reducing components given the current balance. -/
def clampCascade (p m a t bal : ℚ) : ℚ × ℚ × ℚ × ℚ :=
  if p ≥ bal then (bal, 0, 0, 0)
  else if p + m ≥ bal then (p, bal - p, 0, 0)
  else if p + m + a ≥ bal then (p, m, bal - (p + m), 0)
  else if p + m + a + t ≥ bal then (p, m, a, bal - p - m - a)
  else (p, m, a, t)

/-- The periodic top-up added in month `m` (`current_month` after the
increment): `topup_amount` whenever top-up is enabled and the month
number is a multiple of `topup_every_x_month`, else 0. -/
def topupTerm (cfg : LoanConfig) (m : ℕ) : ℚ :=
  if cfg.topup = true ∧ m % cfg.topup_every_x_month = 0
  then cfg.topup_amount else 0

/-- One month of the inner loop of `logic.py`: interest and scheduled
principal from the year's annuity payment, floor top-up via
`minimum_monthly_payment`, flat additional payment, periodic top-up, the
payoff clamp, and the emitted row.  `m` is the already-incremented
`current_month`. -/
def mkRow (cfg : LoanConfig) (rate payment bal : ℚ) (m : ℕ) : Row :=
  let interest := rate / 12 * bal
  let q := clampCascade (payment - interest)
      (max (cfg.minimum_monthly_payment - payment) 0)
      cfg.additional_payment
      (topupTerm cfg m)
      bal
  { loan_start := bal
    interest_rate_yearly := rate
    total := q.1 + q.2.1 + q.2.2.1 + interest + q.2.2.2
    principal := q.1
    interest := interest
    minimum_monthly_payment := q.2.1
    additional_payment := q.2.2.1
    topup := q.2.2.2
    loan_end := bal - (q.1 + q.2.1 + q.2.2.1 + q.2.2.2) }

/-- Result of the inner (monthly) loop: emitted rows and the final
balance, month counter and remaining-month counter. -/
structure MonthsOut where
  rows : List Row
  bal : ℚ
  cm : ℕ
  ml : ℕ
deriving DecidableEq

/-- The inner loop `for j in range(12)` of `logic.py` (the fuel argument
is instantiated with 12): emit a row, update the balance and counters,
and stop early as soon as the balance is ≤ 0. -/
def runMonths (cfg : LoanConfig) (rate payment : ℚ) :
    ℕ → ℚ → ℕ → ℕ → MonthsOut
  | 0, bal, cm, ml => ⟨[], bal, cm, ml⟩
  | fuel + 1, bal, cm, ml =>
    let row := mkRow cfg rate payment bal (cm + 1)
    if row.loan_end ≤ 0 then ⟨[row], row.loan_end, cm + 1, ml - 1⟩
    else
      let rest := runMonths cfg rate payment fuel row.loan_end (cm + 1) (ml - 1)
      ⟨row :: rest.rows, rest.bal, rest.cm, rest.ml⟩

/-- The refinance trigger checked once per completed year in `logic.py`. -/
def refinanceTrigger (cfg : LoanConfig) (i : ℕ) (bal : ℚ) : Prop :=
  cfg.refinance = true ∧ (i + 1) % cfg.refinance_every_x_years = 0 ∧
    bal ≤ cfg.refinance_when_principal_hit

instance (cfg : LoanConfig) (i : ℕ) (bal : ℚ) :
    Decidable (refinanceTrigger cfg i bal) := by
  unfold refinanceTrigger; exact inferInstance

/-- Instrumented record of one iteration of the outer (yearly) loop of
`logic.py`: the year index `i`, the balance / remaining-month count /
accumulated rate increase at the start of the year, the applied annual
rate (as a decimal) and annuity payment, the rows emitted during the
year, and the balance and accumulated rate increase after the year. -/
structure YearLog where
  idx : ℕ
  balStart : ℚ
  monthsLeftStart : ℕ
  incStart : ℚ
  rate : ℚ
  payment : ℚ
  rows : List Row
  balEnd : ℚ
  incEnd : ℚ
deriving DecidableEq

/-- Default year log (default of `List.getD`/`List.getLastD`). -/
def dLog : YearLog := ⟨0, 0, 0, 0, 0, 0, [], 0, 0⟩

instance : Inhabited YearLog := ⟨dLog⟩

/-- `interest_rate` of year `i` in `logic.py`: selected nominal rate
plus the accumulated increase, divided by 100. -/
def yearRate (rs : List ℚ) (i : ℕ) (inc : ℚ) : ℚ :=
  (yearNominal rs i + inc) / 100

/-- `nomi` of `logic.py`: `(1 + monthly rate) ^ months_left`. -/
def yearNomi (rate : ℚ) (ml : ℕ) : ℚ := (1 + rate / 12) ^ ml

/-- `required_monthly_payment` of `logic.py`: the annuity formula
`bal * r * (1+r)^ml / ((1+r)^ml - 1)` with `r` the monthly rate. -/
def yearPayment (bal rate : ℚ) (ml : ℕ) : ℚ :=
  bal * (rate / 12) * yearNomi rate ml / (yearNomi rate ml - 1)

/-- The inner loop of year `i`, run over 12 months from the year's
starting state. -/
def yearOut (cfg : LoanConfig) (rs : List ℚ) (i : ℕ) (bal : ℚ)
    (cm ml : ℕ) (inc : ℚ) : MonthsOut :=
  runMonths cfg (yearRate rs i inc) (yearPayment bal (yearRate rs i inc) ml)
    12 bal cm ml

/-- The instrumented record of year `i`: its start state, applied rate
and annuity payment, emitted rows, and end balance / accumulated
increase (the latter after the refinance trigger). -/
def yearLogOf (cfg : LoanConfig) (rs : List ℚ) (i : ℕ) (bal : ℚ)
    (cm ml : ℕ) (inc : ℚ) : YearLog :=
  ⟨i, bal, ml, inc, yearRate rs i inc, yearPayment bal (yearRate rs i inc) ml,
   (yearOut cfg rs i bal cm ml inc).rows, (yearOut cfg rs i bal cm ml inc).bal,
   if refinanceTrigger cfg i (yearOut cfg rs i bal cm ml inc).bal
   then inc + cfg.refinance_interest_will_increase else inc⟩

/-- The outer loop `for i in range(years)` of `logic.py`.  Arguments:
year index `i`, remaining fuel (initially `years`), balance, month
counter, remaining months, accumulated rate increase.  Each iteration
selects the year's rate, evaluates the annuity formula (flagging the
float division by zero the source would raise when the denominator is
zero), runs the 12-month inner loop, applies the refinance trigger, and
stops as soon as the balance is ≤ 0. -/
def runYears (cfg : LoanConfig) (rs : List ℚ) :
    ℕ → ℕ → ℚ → ℕ → ℕ → ℚ → Except EngineError (List YearLog)
  | _, 0, _, _, _, _ => .ok []
  | i, fuel + 1, bal, cm, ml, inc =>
    if yearNomi (yearRate rs i inc) ml - 1 = 0 then .error .divByZero
    else
      if (yearOut cfg rs i bal cm ml inc).bal ≤ 0 then
        .ok [yearLogOf cfg rs i bal cm ml inc]
      else
        (runYears cfg rs (i + 1) fuel (yearOut cfg rs i bal cm ml inc).bal
          (yearOut cfg rs i bal cm ml inc).cm
          (yearOut cfg rs i bal cm ml inc).ml
          (yearLogOf cfg rs i bal cm ml inc).incEnd).map
          (yearLogOf cfg rs i bal cm ml inc :: ·)

/-- Instrumented engine: validation, rate-list extension, then the
yearly loop started from month 0, balance `loan`, `years * 12` months
remaining and accumulated rate increase 0. -/
def runEngine (cfg : LoanConfig) : Except EngineError (List YearLog) :=
  if codeValid cfg then
    runYears cfg (ratesExtended cfg) 0 cfg.years cfg.loan 0 (cfg.years * 12) 0
  else .error .invalidInput

/-- Flatten the per-year row lists into the emitted schedule, in order. -/
def rowsOf (logs : List YearLog) : List Row :=
  (logs.map YearLog.rows).flatten

/-- `calculate_monthly_payment` of `logic.py`: the schedule is exactly
the rows appended to `hist`, i.e. the concatenation of the per-year
rows. -/
def calculate_monthly_payment (cfg : LoanConfig) : Except EngineError (List Row) :=
  (runEngine cfg).map rowsOf

/-- The spec's §3 LoanConfig validity: the code's own preconditions plus
the data-model constraints (positive principal and term, non-negative
payments, thresholds and rate increase, positive top-up parameters). -/
def ValidConfig (cfg : LoanConfig) : Prop :=
  0 < cfg.loan ∧ 1 ≤ cfg.years ∧
  cfg.interest_rates_100 ≠ [] ∧
  (∀ r ∈ cfg.interest_rates_100, 0 < r) ∧
  0 ≤ cfg.minimum_monthly_payment ∧ 0 ≤ cfg.additional_payment ∧
  0 ≤ cfg.refinance_when_principal_hit ∧
  cfg.refinance_when_principal_hit < cfg.loan ∧
  0 ≤ cfg.refinance_interest_will_increase ∧
  (cfg.refinance = true →
    0 < cfg.refinance_every_x_years ∧
    cfg.refinance_every_x_years ≤ cfg.interest_rates_100.length) ∧
  (cfg.topup = true → 0 < cfg.topup_every_x_month ∧ 0 < cfg.topup_amount)

instance (cfg : LoanConfig) : Decidable (ValidConfig cfg) := by
  unfold ValidConfig; exact inferInstance

theorem validConfig_codeValid {cfg : LoanConfig} (h : ValidConfig cfg) :
    codeValid cfg :=
  ⟨h.2.2.1, h.2.2.2.1, h.2.2.2.2.2.2.2.1, h.2.2.2.2.2.2.2.2.2.1,
   h.2.2.2.2.2.2.2.2.2.2⟩

/-! ### Row-level lemmas about the payoff clamp -/

/-- The standard payment alone absorbs the residual balance. -/
def absorbPrincipal (row : Row) : Prop :=
  row.principal = row.loan_start ∧ row.minimum_monthly_payment = 0 ∧
  row.additional_payment = 0 ∧ row.topup = 0

/-- The minimum-payment top-up is clamped to absorb the residual. -/
def absorbMinimum (row : Row) : Prop :=
  row.principal < row.loan_start ∧
  row.minimum_monthly_payment = row.loan_start - row.principal ∧
  row.additional_payment = 0 ∧ row.topup = 0

/-- The additional payment is clamped to absorb the residual. -/
def absorbAdditional (row : Row) : Prop :=
  row.principal + row.minimum_monthly_payment < row.loan_start ∧
  row.additional_payment =
    row.loan_start - (row.principal + row.minimum_monthly_payment) ∧
  row.topup = 0

/-- The periodic top-up is clamped to absorb the residual. -/
def absorbTopup (row : Row) : Prop :=
  row.principal + row.minimum_monthly_payment + row.additional_payment <
    row.loan_start ∧
  row.topup = row.loan_start - row.principal - row.minimum_monthly_payment -
    row.additional_payment

/-- Exactly one of the four components is clamped, in the strict
priority order principal, then minimum, then additional, then top-up. -/
def ExactlyOneAbsorb (row : Row) : Prop :=
  (absorbPrincipal row ∨ absorbMinimum row ∨ absorbAdditional row ∨
    absorbTopup row) ∧
  ¬(absorbPrincipal row ∧ absorbMinimum row) ∧
  ¬(absorbPrincipal row ∧ absorbAdditional row) ∧
  ¬(absorbPrincipal row ∧ absorbTopup row) ∧
  ¬(absorbMinimum row ∧ absorbAdditional row) ∧
  ¬(absorbMinimum row ∧ absorbTopup row) ∧
  ¬(absorbAdditional row ∧ absorbTopup row)

theorem absorb_pairwise_exclusive (row : Row) :
    ¬(absorbPrincipal row ∧ absorbMinimum row) ∧
    ¬(absorbPrincipal row ∧ absorbAdditional row) ∧
    ¬(absorbPrincipal row ∧ absorbTopup row) ∧
    ¬(absorbMinimum row ∧ absorbAdditional row) ∧
    ¬(absorbMinimum row ∧ absorbTopup row) ∧
    ¬(absorbAdditional row ∧ absorbTopup row) := by
  unfold absorbPrincipal absorbMinimum absorbAdditional absorbTopup
  refine ⟨?_, ?_, ?_, ?_, ?_, ?_⟩
  · rintro ⟨⟨p₁, p₂, p₃, p₄⟩, q₁, q₂, q₃, q₄⟩; linarith
  · rintro ⟨⟨p₁, p₂, p₃, p₄⟩, q₁, q₂, q₃⟩; linarith
  · rintro ⟨⟨p₁, p₂, p₃, p₄⟩, q₁, q₂⟩; linarith
  · rintro ⟨⟨p₁, p₂, p₃, p₄⟩, q₁, q₂, q₃⟩; linarith
  · rintro ⟨⟨p₁, p₂, p₃, p₄⟩, q₁, q₂⟩; linarith
  · rintro ⟨⟨p₁, p₂, p₃⟩, q₁, q₂⟩; linarith

/-- Case analysis of the payoff-clamp cascade: exactly one branch fires,
with the branch conditions of the source. -/
theorem clampCascade_cases (p m a t bal : ℚ) :
    (bal ≤ p ∧ clampCascade p m a t bal = (bal, 0, 0, 0)) ∨
    (p < bal ∧ bal ≤ p + m ∧ clampCascade p m a t bal = (p, bal - p, 0, 0)) ∨
    (p + m < bal ∧ bal ≤ p + m + a ∧
      clampCascade p m a t bal = (p, m, bal - (p + m), 0)) ∨
    (p + m + a < bal ∧ bal ≤ p + m + a + t ∧
      clampCascade p m a t bal = (p, m, a, bal - p - m - a)) ∨
    (p + m + a + t < bal ∧ clampCascade p m a t bal = (p, m, a, t)) := by
  unfold clampCascade
  split_ifs with h₁ h₂ h₃ h₄
  · exact Or.inl ⟨h₁, rfl⟩
  · exact Or.inr (Or.inl ⟨by linarith [lt_of_not_ge h₁], h₂, rfl⟩)
  · exact Or.inr (Or.inr (Or.inl ⟨lt_of_not_ge h₂, h₃, rfl⟩))
  · exact Or.inr (Or.inr (Or.inr (Or.inl ⟨lt_of_not_ge h₃, h₄, rfl⟩)))
  · exact Or.inr (Or.inr (Or.inr (Or.inr ⟨lt_of_not_ge h₄, rfl⟩)))

theorem mkRow_loan_start (cfg : LoanConfig) (rate payment bal : ℚ) (m : ℕ) :
    (mkRow cfg rate payment bal m).loan_start = bal := rfl

theorem mkRow_rate (cfg : LoanConfig) (rate payment bal : ℚ) (m : ℕ) :
    (mkRow cfg rate payment bal m).interest_rate_yearly = rate := rfl

theorem mkRow_interest (cfg : LoanConfig) (rate payment bal : ℚ) (m : ℕ) :
    (mkRow cfg rate payment bal m).interest = rate / 12 * bal := rfl

theorem mkRow_eq_clamp (cfg : LoanConfig) (rate payment bal : ℚ) (m : ℕ) :
    mkRow cfg rate payment bal m =
      { loan_start := bal
        interest_rate_yearly := rate
        total := (clampCascade (payment - rate / 12 * bal)
            (max (cfg.minimum_monthly_payment - payment) 0)
            cfg.additional_payment (topupTerm cfg m) bal).1 +
          (clampCascade (payment - rate / 12 * bal)
            (max (cfg.minimum_monthly_payment - payment) 0)
            cfg.additional_payment (topupTerm cfg m) bal).2.1 +
          (clampCascade (payment - rate / 12 * bal)
            (max (cfg.minimum_monthly_payment - payment) 0)
            cfg.additional_payment (topupTerm cfg m) bal).2.2.1 +
          rate / 12 * bal +
          (clampCascade (payment - rate / 12 * bal)
            (max (cfg.minimum_monthly_payment - payment) 0)
            cfg.additional_payment (topupTerm cfg m) bal).2.2.2
        principal := (clampCascade (payment - rate / 12 * bal)
            (max (cfg.minimum_monthly_payment - payment) 0)
            cfg.additional_payment (topupTerm cfg m) bal).1
        interest := rate / 12 * bal
        minimum_monthly_payment := (clampCascade (payment - rate / 12 * bal)
            (max (cfg.minimum_monthly_payment - payment) 0)
            cfg.additional_payment (topupTerm cfg m) bal).2.1
        additional_payment := (clampCascade (payment - rate / 12 * bal)
            (max (cfg.minimum_monthly_payment - payment) 0)
            cfg.additional_payment (topupTerm cfg m) bal).2.2.1
        topup := (clampCascade (payment - rate / 12 * bal)
            (max (cfg.minimum_monthly_payment - payment) 0)
            cfg.additional_payment (topupTerm cfg m) bal).2.2.2
        loan_end := bal - ((clampCascade (payment - rate / 12 * bal)
            (max (cfg.minimum_monthly_payment - payment) 0)
            cfg.additional_payment (topupTerm cfg m) bal).1 +
          (clampCascade (payment - rate / 12 * bal)
            (max (cfg.minimum_monthly_payment - payment) 0)
            cfg.additional_payment (topupTerm cfg m) bal).2.1 +
          (clampCascade (payment - rate / 12 * bal)
            (max (cfg.minimum_monthly_payment - payment) 0)
            cfg.additional_payment (topupTerm cfg m) bal).2.2.1 +
          (clampCascade (payment - rate / 12 * bal)
            (max (cfg.minimum_monthly_payment - payment) 0)
            cfg.additional_payment (topupTerm cfg m) bal).2.2.2) } := rfl

theorem mkRow_total (cfg : LoanConfig) (rate payment bal : ℚ) (m : ℕ) :
    (mkRow cfg rate payment bal m).total =
      (mkRow cfg rate payment bal m).principal +
      (mkRow cfg rate payment bal m).interest +
      (mkRow cfg rate payment bal m).minimum_monthly_payment +
      (mkRow cfg rate payment bal m).additional_payment +
      (mkRow cfg rate payment bal m).topup := by
  rw [mkRow_eq_clamp]
  ring

theorem mkRow_loan_end (cfg : LoanConfig) (rate payment bal : ℚ) (m : ℕ) :
    (mkRow cfg rate payment bal m).loan_end =
      (mkRow cfg rate payment bal m).loan_start -
       ((mkRow cfg rate payment bal m).principal +
        (mkRow cfg rate payment bal m).minimum_monthly_payment +
        (mkRow cfg rate payment bal m).additional_payment +
        (mkRow cfg rate payment bal m).topup) := rfl

theorem mkRow_loan_end_nonneg (cfg : LoanConfig) (rate payment bal : ℚ)
    (m : ℕ) : 0 ≤ (mkRow cfg rate payment bal m).loan_end := by
  rw [mkRow_eq_clamp]
  obtain ⟨h, hq⟩ | ⟨h, h', hq⟩ | ⟨h, h', hq⟩ | ⟨h, h', hq⟩ | ⟨h, hq⟩ :=
    clampCascade_cases (payment - rate / 12 * bal)
      (max (cfg.minimum_monthly_payment - payment) 0)
      cfg.additional_payment (topupTerm cfg m) bal <;>
    simp [hq] <;> linarith

theorem mkRow_payoff (cfg : LoanConfig) (rate payment bal : ℚ) (m : ℕ)
    (h : (mkRow cfg rate payment bal m).loan_end ≤ 0) :
    absorbPrincipal (mkRow cfg rate payment bal m) ∨
    absorbMinimum (mkRow cfg rate payment bal m) ∨
    absorbAdditional (mkRow cfg rate payment bal m) ∨
    absorbTopup (mkRow cfg rate payment bal m) := by
  unfold absorbPrincipal absorbMinimum absorbAdditional absorbTopup
  rw [mkRow_eq_clamp] at h ⊢
  obtain ⟨hc, hq⟩ | ⟨hc, hc', hq⟩ | ⟨hc, hc', hq⟩ | ⟨hc, hc', hq⟩ | ⟨hc, hq⟩ :=
    clampCascade_cases (payment - rate / 12 * bal)
      (max (cfg.minimum_monthly_payment - payment) 0)
      cfg.additional_payment (topupTerm cfg m) bal
  · rw [hq]; exact Or.inl ⟨rfl, rfl, rfl, rfl⟩
  · rw [hq]; exact Or.inr (Or.inl ⟨hc, rfl, rfl, rfl⟩)
  · rw [hq]; exact Or.inr (Or.inr (Or.inl ⟨hc, rfl, rfl⟩))
  · rw [hq]
    exact Or.inr (Or.inr (Or.inr ⟨hc, by ring⟩))
  · rw [hq] at h; simp at h; linarith

/-- In an unclamped month (positive ending balance) the emitted
components are the raw ones of the source: the principal implied by the
standard payment, the minimum floor, the configured additional payment
and the periodic top-up. -/
theorem mkRow_unclamped (cfg : LoanConfig) (rate payment bal : ℚ) (m : ℕ)
    (h : 0 < (mkRow cfg rate payment bal m).loan_end) :
    (mkRow cfg rate payment bal m).principal = payment - rate / 12 * bal ∧
    (mkRow cfg rate payment bal m).minimum_monthly_payment =
      max (cfg.minimum_monthly_payment - payment) 0 ∧
    (mkRow cfg rate payment bal m).additional_payment =
      cfg.additional_payment ∧
    (mkRow cfg rate payment bal m).topup = topupTerm cfg m := by
  rw [mkRow_eq_clamp] at h ⊢
  obtain ⟨hc, hq⟩ | ⟨hc, hc', hq⟩ | ⟨hc, hc', hq⟩ | ⟨hc, hc', hq⟩ | ⟨hc, hq⟩ :=
    clampCascade_cases (payment - rate / 12 * bal)
      (max (cfg.minimum_monthly_payment - payment) 0)
      cfg.additional_payment (topupTerm cfg m) bal
  · exfalso; rw [hq] at h; simp at h <;> linarith
  · exfalso; rw [hq] at h; simp at h <;> linarith
  · exfalso; rw [hq] at h; simp at h <;> linarith
  · exfalso; rw [hq] at h; simp at h <;> linarith
  · rw [hq]; exact ⟨rfl, rfl, rfl, rfl⟩

theorem topupTerm_nonneg (cfg : LoanConfig) (m : ℕ)
    (htop : cfg.topup = true → 0 ≤ cfg.topup_amount) :
    0 ≤ topupTerm cfg m := by
  unfold topupTerm
  split_ifs with h
  · exact htop h.1
  · exact le_refl 0

theorem mkRow_loan_end_le (cfg : LoanConfig) (rate payment bal : ℚ) (m : ℕ)
    (hadd : 0 ≤ cfg.additional_payment)
    (htop : cfg.topup = true → 0 ≤ cfg.topup_amount)
    (hbal : 0 ≤ bal) (hpay : rate / 12 * bal ≤ payment) :
    (mkRow cfg rate payment bal m).loan_end ≤ bal := by
  have ht := topupTerm_nonneg cfg m htop
  have hm : (0:ℚ) ≤ max (cfg.minimum_monthly_payment - payment) 0 :=
    le_max_right _ _
  rw [mkRow_eq_clamp]
  obtain ⟨hc, hq⟩ | ⟨hc, hc', hq⟩ | ⟨hc, hc', hq⟩ | ⟨hc, hc', hq⟩ | ⟨hc, hq⟩ :=
    clampCascade_cases (payment - rate / 12 * bal)
      (max (cfg.minimum_monthly_payment - payment) 0)
      cfg.additional_payment (topupTerm cfg m) bal <;>
    simp [hq] <;> linarith

/-- In an unclamped month the new balance is at most
`bal * (1 + rate/12) - payment` (the pure-annuity recurrence). -/
theorem mkRow_annuity_step (cfg : LoanConfig) (rate payment bal : ℚ) (m : ℕ)
    (hadd : 0 ≤ cfg.additional_payment)
    (htop : cfg.topup = true → 0 ≤ cfg.topup_amount)
    (h : 0 < (mkRow cfg rate payment bal m).loan_end) :
    (mkRow cfg rate payment bal m).loan_end ≤
      bal * (1 + rate / 12) - payment := by
  have ht := topupTerm_nonneg cfg m htop
  have hm : (0:ℚ) ≤ max (cfg.minimum_monthly_payment - payment) 0 :=
    le_max_right _ _
  rw [mkRow_eq_clamp] at h ⊢
  obtain ⟨hc, hq⟩ | ⟨hc, hc', hq⟩ | ⟨hc, hc', hq⟩ | ⟨hc, hc', hq⟩ | ⟨hc, hq⟩ :=
    clampCascade_cases (payment - rate / 12 * bal)
      (max (cfg.minimum_monthly_payment - payment) 0)
      cfg.additional_payment (topupTerm cfg m) bal
  · exfalso; rw [hq] at h; simp at h <;> linarith
  · exfalso; rw [hq] at h; simp at h <;> linarith
  · exfalso; rw [hq] at h; simp at h <;> linarith
  · exfalso; rw [hq] at h; simp at h <;> linarith
  · rw [hq] at h ⊢
    simp at h ⊢
    have hexp : bal * (1 + rate / 12) = bal + rate / 12 * bal := by ring
    linarith

/-! ### Chained-row predicates -/

/-- Each row starts at the balance the previous row ended with; the
first row starts at `b`. -/
def RowChain : ℚ → List Row → Prop
  | _, [] => True
  | b, r :: rest => r.loan_start = b ∧ RowChain r.loan_end rest

/-- `loan_end` is non-increasing along the list. -/
def RowsLE : List Row → Prop
  | [] => True
  | [_] => True
  | a :: b :: rest => b.loan_end ≤ a.loan_end ∧ RowsLE (b :: rest)

/-- Every row but possibly the last has a positive ending balance: no
row is emitted after the payoff month. -/
def PayoffLast : List Row → Prop
  | [] => True
  | [_] => True
  | a :: b :: rest => 0 < a.loan_end ∧ PayoffLast (b :: rest)

theorem RowChain_head {b : ℚ} {rows : List Row} (h : RowChain b rows)
    (hne : rows ≠ []) : rows.headI.loan_start = b := by
  cases rows with
  | nil => exact absurd rfl hne
  | cons r rest => exact h.1

theorem RowChain_append {b : ℚ} {xs ys : List Row} (hxs : RowChain b xs)
    (hne : xs ≠ []) (hys : RowChain (xs.getLastD dRow).loan_end ys) :
    RowChain b (xs ++ ys) := by
  induction xs generalizing b with
  | nil => exact absurd rfl hne
  | cons r rest ih =>
    cases rest with
    | nil =>
      simpa [RowChain, List.getLastD] using ⟨hxs.1, hys⟩
    | cons r' rest' =>
      refine ⟨hxs.1, ih hxs.2 (by simp) ?_⟩
      simpa [List.getLastD] using hys

theorem RowsLE_of_chain {b : ℚ} {rows : List Row} (hc : RowChain b rows)
    (hle : ∀ row ∈ rows, row.loan_end ≤ row.loan_start) : RowsLE rows := by
  induction rows generalizing b with
  | nil => trivial
  | cons r rest ih =>
    cases rest with
    | nil => trivial
    | cons r' rest' =>
      refine ⟨?_, ih hc.2 (fun row hr => hle row (List.mem_cons_of_mem _ hr))⟩
      have h1 := hle r' (by simp)
      have h2 : r'.loan_start = r.loan_end := hc.2.1
      linarith

theorem PayoffLast_cons (r : Row) (l : List Row)
    (h1 : l ≠ [] → 0 < r.loan_end) (h2 : PayoffLast l) :
    PayoffLast (r :: l) := by
  cases l with
  | nil => trivial
  | cons z zs => exact ⟨h1 (by simp), h2⟩

theorem PayoffLast_all {rows : List Row} (h : PayoffLast rows)
    (hlast : 0 < (rows.getLastD dRow).loan_end) :
    ∀ row ∈ rows, 0 < row.loan_end := by
  induction rows with
  | nil => intro row hr; cases hr
  | cons r rest ih =>
    cases rest with
    | nil =>
      intro row hr
      rcases List.mem_singleton.1 hr with rfl
      simpa [List.getLastD] using hlast
    | cons r' rest' =>
      intro row hr
      rcases List.mem_cons.1 hr with rfl | hr'
      · exact h.1
      · exact ih h.2 (by simpa [List.getLastD] using hlast) row hr'

theorem PayoffLast_append {xs ys : List Row}
    (hxs : ∀ row ∈ xs, 0 < row.loan_end) (hys : PayoffLast ys) :
    PayoffLast (xs ++ ys) := by
  induction xs with
  | nil => simpa using hys
  | cons r rest ih =>
    exact PayoffLast_cons r (rest ++ ys)
      (fun _ => hxs r (by simp))
      (ih (fun row hr => hxs row (List.mem_cons_of_mem _ hr)))

/-! ### The pure annuity recurrence -/

/-- Balance after `k` months of the pure annuity recurrence
`b ↦ b * (1 + r) - payment` starting from `b`. -/
def annuityBal (b payment r : ℚ) : ℕ → ℚ
  | 0 => b
  | k + 1 => annuityBal b payment r k * (1 + r) - payment

theorem annuityBal_shift (b payment r : ℚ) (k : ℕ) :
    annuityBal b payment r (k + 1) =
      annuityBal (b * (1 + r) - payment) payment r k := by
  induction k with
  | zero => rfl
  | succ k ih =>
    show annuityBal b payment r (k + 1) * (1 + r) - payment = _
    rw [ih]
    rfl

theorem annuityBal_mono {b b' : ℚ} (payment r : ℚ) (hr : 0 ≤ 1 + r)
    (hbb : b ≤ b') (k : ℕ) :
    annuityBal b payment r k ≤ annuityBal b' payment r k := by
  induction k with
  | zero => exact hbb
  | succ k ih =>
    have := mul_le_mul_of_nonneg_right ih hr
    simpa [annuityBal] using sub_le_sub_right this payment

theorem annuityBal_mul (b payment r : ℚ) (k : ℕ) :
    r * annuityBal b payment r k =
      r * b * (1 + r) ^ k - payment * ((1 + r) ^ k - 1) := by
  induction k with
  | zero => simp [annuityBal]
  | succ k ih =>
    have : r * annuityBal b payment r (k + 1) =
        (r * annuityBal b payment r k) * (1 + r) - r * payment := by
      simp only [annuityBal]; ring
    rw [this, ih, pow_succ]
    ring

/-! ### Structural lemmas about the inner monthly loop -/

theorem runMonths_succ (cfg : LoanConfig) (rate payment : ℚ) (fuel : ℕ)
    (bal : ℚ) (cm ml : ℕ) :
    runMonths cfg rate payment (fuel + 1) bal cm ml =
      if (mkRow cfg rate payment bal (cm + 1)).loan_end ≤ 0 then
        ⟨[mkRow cfg rate payment bal (cm + 1)],
         (mkRow cfg rate payment bal (cm + 1)).loan_end, cm + 1, ml - 1⟩
      else
        ⟨mkRow cfg rate payment bal (cm + 1) ::
           (runMonths cfg rate payment fuel
             (mkRow cfg rate payment bal (cm + 1)).loan_end (cm + 1)
             (ml - 1)).rows,
         (runMonths cfg rate payment fuel
           (mkRow cfg rate payment bal (cm + 1)).loan_end (cm + 1)
           (ml - 1)).bal,
         (runMonths cfg rate payment fuel
           (mkRow cfg rate payment bal (cm + 1)).loan_end (cm + 1)
           (ml - 1)).cm,
         (runMonths cfg rate payment fuel
           (mkRow cfg rate payment bal (cm + 1)).loan_end (cm + 1)
           (ml - 1)).ml⟩ := rfl

theorem runMonths_struct (cfg : LoanConfig) (rate payment : ℚ) :
    ∀ (fuel : ℕ) (bal : ℚ) (cm ml : ℕ),
    (runMonths cfg rate payment fuel bal cm ml).rows.length ≤ fuel ∧
    (runMonths cfg rate payment fuel bal cm ml).cm =
      cm + (runMonths cfg rate payment fuel bal cm ml).rows.length ∧
    (runMonths cfg rate payment fuel bal cm ml).ml =
      ml - (runMonths cfg rate payment fuel bal cm ml).rows.length ∧
    RowChain bal (runMonths cfg rate payment fuel bal cm ml).rows ∧
    (∀ row ∈ (runMonths cfg rate payment fuel bal cm ml).rows,
      ∃ m, row = mkRow cfg rate payment row.loan_start m) ∧
    ((runMonths cfg rate payment fuel bal cm ml).rows = [] →
      (runMonths cfg rate payment fuel bal cm ml).bal = bal ∧ fuel = 0) ∧
    ((runMonths cfg rate payment fuel bal cm ml).rows ≠ [] →
      (runMonths cfg rate payment fuel bal cm ml).bal =
        ((runMonths cfg rate payment fuel bal cm ml).rows.getLastD
          dRow).loan_end) ∧
    (0 < (runMonths cfg rate payment fuel bal cm ml).bal →
      (runMonths cfg rate payment fuel bal cm ml).rows.length = fuel) ∧
    PayoffLast (runMonths cfg rate payment fuel bal cm ml).rows := by
  intro fuel
  induction fuel with
  | zero =>
    intro bal cm ml
    refine ⟨?_, ?_, ?_, ?_, ?_, ?_, ?_, ?_, ?_⟩ <;>
      simp [runMonths, RowChain, PayoffLast]
  | succ fuel ih =>
    intro bal cm ml
    rw [runMonths_succ]
    by_cases hb : (mkRow cfg rate payment bal (cm + 1)).loan_end ≤ 0
    · rw [if_pos hb]
      refine ⟨by simp, by simp, by simp, ?_, ?_, by simp, ?_, ?_, ?_⟩
      · exact ⟨mkRow_loan_start cfg rate payment bal (cm + 1), trivial⟩
      · intro row hr
        rcases List.mem_singleton.1 hr with rfl
        exact ⟨cm + 1, by rw [mkRow_loan_start]⟩
      · intro _
        simp [List.getLastD]
      · intro hpos
        exfalso
        simp only at hpos
        linarith
      · trivial
    · rw [if_neg hb]
      obtain ⟨ih₁, ih₂, ih₃, ih₄, ih₅, ih₆, ih₇, ih₈, ih₉⟩ :=
        ih (mkRow cfg rate payment bal (cm + 1)).loan_end (cm + 1) (ml - 1)
      refine ⟨?_, ?_, ?_, ?_, ?_, ?_, ?_, ?_, ?_⟩
      · simpa using Nat.succ_le_succ ih₁
      · simp only [List.length_cons]
        omega
      · simp only [List.length_cons]
        omega
      · exact ⟨mkRow_loan_start cfg rate payment bal (cm + 1), ih₄⟩
      · intro row hr
        rcases List.mem_cons.1 hr with rfl | hr'
        · exact ⟨cm + 1, by rw [mkRow_loan_start]⟩
        · exact ih₅ row hr'
      · intro h'
        simp at h'
      · intro _
        rcases h' : (runMonths cfg rate payment fuel
            (mkRow cfg rate payment bal (cm + 1)).loan_end (cm + 1)
            (ml - 1)).rows with _ | ⟨z, zs⟩
        · obtain ⟨hbz, -⟩ := ih₆ h'
          simp [List.getLastD, hbz]
        · have hne : (runMonths cfg rate payment fuel
              (mkRow cfg rate payment bal (cm + 1)).loan_end (cm + 1)
              (ml - 1)).rows ≠ [] := by rw [h']; simp
          have := ih₇ hne
          rw [h'] at this
          simpa [List.getLastD] using this
      · intro hpos
        simp only [List.length_cons]
        rw [ih₈ hpos]
      · exact PayoffLast_cons _ _ (fun _ => not_le.mp hb) ih₉

/-- Monotonicity of the inner loop: under non-negative extras and a
payment at least covering the interest on the starting balance, every
emitted row has a positive starting balance and a non-increasing
balance, and the final balance lies in `[0, bal]`. -/
theorem runMonths_mono (cfg : LoanConfig) (rate payment : ℚ)
    (hadd : 0 ≤ cfg.additional_payment)
    (htop : cfg.topup = true → 0 ≤ cfg.topup_amount)
    (hr : 0 ≤ rate) :
    ∀ (fuel : ℕ) (bal : ℚ) (cm ml : ℕ), 0 < bal →
      rate / 12 * bal ≤ payment →
    (runMonths cfg rate payment fuel bal cm ml).bal ≤ bal ∧
    0 ≤ (runMonths cfg rate payment fuel bal cm ml).bal ∧
    (∀ row ∈ (runMonths cfg rate payment fuel bal cm ml).rows,
      0 < row.loan_start ∧ row.loan_end ≤ row.loan_start) := by
  intro fuel
  induction fuel with
  | zero =>
    intro bal cm ml hbal hpay
    refine ⟨le_refl _, le_of_lt hbal, ?_⟩
    intro row hr'
    cases hr'
  | succ fuel ih =>
    intro bal cm ml hbal hpay
    have hle : (mkRow cfg rate payment bal (cm + 1)).loan_end ≤ bal :=
      mkRow_loan_end_le cfg rate payment bal (cm + 1) hadd htop
        (le_of_lt hbal) hpay
    have hge : 0 ≤ (mkRow cfg rate payment bal (cm + 1)).loan_end :=
      mkRow_loan_end_nonneg cfg rate payment bal (cm + 1)
    rw [runMonths_succ]
    by_cases hb : (mkRow cfg rate payment bal (cm + 1)).loan_end ≤ 0
    · rw [if_pos hb]
      refine ⟨hle, hge, ?_⟩
      intro row hr'
      rcases List.mem_singleton.1 hr' with rfl
      rw [mkRow_loan_start]
      exact ⟨hbal, hle⟩
    · rw [if_neg hb]
      have hbal' : 0 < (mkRow cfg rate payment bal (cm + 1)).loan_end :=
        not_le.mp hb
      have hpay' : rate / 12 * (mkRow cfg rate payment bal (cm + 1)).loan_end ≤
          payment := by
        have h12 : 0 ≤ rate / 12 := by positivity
        calc rate / 12 * (mkRow cfg rate payment bal (cm + 1)).loan_end
            ≤ rate / 12 * bal := mul_le_mul_of_nonneg_left hle h12
          _ ≤ payment := hpay
      obtain ⟨ih₁, ih₂, ih₃⟩ := ih (mkRow cfg rate payment bal (cm + 1)).loan_end
        (cm + 1) (ml - 1) hbal' hpay'
      refine ⟨le_trans ih₁ hle, ih₂, ?_⟩
      intro row hr'
      rcases List.mem_cons.1 hr' with rfl | hr''
      · rw [mkRow_loan_start]
        exact ⟨hbal, hle⟩
      · exact ih₃ row hr''

/-- Annuity bound: the balance after the inner loop is at most the
pure-annuity balance, unless the loop broke at payoff. -/
theorem runMonths_annuity (cfg : LoanConfig) (rate payment : ℚ)
    (hadd : 0 ≤ cfg.additional_payment)
    (htop : cfg.topup = true → 0 ≤ cfg.topup_amount)
    (hr : 0 ≤ rate) :
    ∀ (fuel : ℕ) (bal : ℚ) (cm ml : ℕ),
    (runMonths cfg rate payment fuel bal cm ml).bal ≤ 0 ∨
    (runMonths cfg rate payment fuel bal cm ml).bal ≤
      annuityBal bal payment (rate / 12) fuel := by
  have h1r : (0:ℚ) ≤ 1 + rate / 12 := by positivity
  intro fuel
  induction fuel with
  | zero =>
    intro bal cm ml
    exact Or.inr (le_refl _)
  | succ fuel ih =>
    intro bal cm ml
    rw [runMonths_succ]
    by_cases hb : (mkRow cfg rate payment bal (cm + 1)).loan_end ≤ 0
    · rw [if_pos hb]
      exact Or.inl hb
    · rw [if_neg hb]
      have hstep : (mkRow cfg rate payment bal (cm + 1)).loan_end ≤
          bal * (1 + rate / 12) - payment :=
        mkRow_annuity_step cfg rate payment bal (cm + 1) hadd htop
          (not_le.mp hb)
      rcases ih (mkRow cfg rate payment bal (cm + 1)).loan_end (cm + 1)
          (ml - 1) with h | h
      · exact Or.inl h
      · refine Or.inr ?_
        calc (runMonths cfg rate payment fuel
              (mkRow cfg rate payment bal (cm + 1)).loan_end (cm + 1)
              (ml - 1)).bal
            ≤ annuityBal (mkRow cfg rate payment bal (cm + 1)).loan_end
              payment (rate / 12) fuel := h
          _ ≤ annuityBal (bal * (1 + rate / 12) - payment) payment
              (rate / 12) fuel := annuityBal_mono payment _ h1r hstep fuel
          _ = annuityBal bal payment (rate / 12) (fuel + 1) :=
              (annuityBal_shift bal payment (rate / 12) fuel).symm

/-! ### Year-level facts: rate positivity, annuity payment bounds -/

theorem yearNominal_pos {rs : List ℚ} (hne : rs ≠ [])
    (hrs : ∀ r ∈ rs, 0 < r) (i : ℕ) : 0 < yearNominal rs i := by
  unfold yearNominal
  have hlen : 0 < rs.length := List.length_pos.mpr hne
  split_ifs with h
  · have hi : i < rs.length := by omega
    rw [List.getD_eq_getElem rs 0 hi]
    exact hrs _ (List.getElem_mem hi)
  · rw [List.getLastD_eq_getLast? , List.getLast?_eq_getLast rs hne]
    exact hrs _ (List.getLast_mem hne)

theorem yearRate_pos {rs : List ℚ} (hne : rs ≠ [])
    (hrs : ∀ r ∈ rs, 0 < r) (i : ℕ) {inc : ℚ} (hinc : 0 ≤ inc) :
    0 < yearRate rs i inc := by
  unfold yearRate
  have := yearNominal_pos hne hrs i
  positivity

theorem yearDenomi_pos {rate : ℚ} (hrate : 0 < rate) {ml : ℕ}
    (hml : 0 < ml) : 0 < yearNomi rate ml - 1 := by
  have h12 : (0:ℚ) < rate / 12 := by positivity
  have h1 : (1:ℚ) < 1 + rate / 12 := by linarith
  have hp : (1:ℚ) < (1 + rate / 12) ^ ml := one_lt_pow h1 (by omega)
  unfold yearNomi
  linarith

theorem yearPayment_ge {bal rate : ℚ} (hbal : 0 ≤ bal) (hrate : 0 < rate)
    {ml : ℕ} (hml : 0 < ml) :
    rate / 12 * bal ≤ yearPayment bal rate ml := by
  have hd : 0 < yearNomi rate ml - 1 := yearDenomi_pos hrate hml
  have hx : (0:ℚ) ≤ bal * (rate / 12) := by positivity
  unfold yearPayment
  rw [le_div_iff hd]
  nlinarith

theorem yearPayment_mul (bal rate : ℚ) (ml : ℕ)
    (hd : yearNomi rate ml - 1 ≠ 0) :
    yearPayment bal rate ml * (yearNomi rate ml - 1) =
      bal * (rate / 12) * yearNomi rate ml :=
  div_mul_cancel₀ _ hd

/-- In a year whose remaining-month count is 12 (the nominal final
year), the inner loop necessarily reaches payoff: the balance after the
12 months is ≤ 0. -/
theorem yearOut_payoff (cfg : LoanConfig) (rs : List ℚ) (i cm : ℕ)
    (bal inc : ℚ)
    (hadd : 0 ≤ cfg.additional_payment)
    (htop : cfg.topup = true → 0 ≤ cfg.topup_amount)
    (hrate : 0 < yearRate rs i inc) :
    (yearOut cfg rs i bal cm 12 inc).bal ≤ 0 := by
  have hr0 : 0 ≤ yearRate rs i inc := le_of_lt hrate
  have hd : 0 < yearNomi (yearRate rs i inc) 12 - 1 :=
    yearDenomi_pos hrate (by norm_num)
  rcases runMonths_annuity cfg (yearRate rs i inc)
      (yearPayment bal (yearRate rs i inc) 12) hadd htop hr0 12 bal cm 12
    with h | h
  · exact h
  · have hmul := annuityBal_mul bal (yearPayment bal (yearRate rs i inc) 12)
      (yearRate rs i inc / 12) 12
    have hpm := yearPayment_mul bal (yearRate rs i inc) 12 (ne_of_gt hd)
    have hnomi : (1 + yearRate rs i inc / 12) ^ 12 =
        yearNomi (yearRate rs i inc) 12 := rfl
    have hr12 : (0:ℚ) < yearRate rs i inc / 12 := by positivity
    have hz0 : yearRate rs i inc / 12 *
        annuityBal bal (yearPayment bal (yearRate rs i inc) 12)
          (yearRate rs i inc / 12) 12 = 0 := by
      rw [hmul, hnomi]
      linear_combination -hpm
    have hz : annuityBal bal (yearPayment bal (yearRate rs i inc) 12)
        (yearRate rs i inc / 12) 12 = 0 :=
      (mul_eq_zero.mp hz0).resolve_left (ne_of_gt hr12)
    rw [hz] at h
    exact h

/-! ### The master invariant of the yearly loop -/

/-- Per-year facts recorded by a `YearLog`: the rate and payment come
from the source's formulas at the year's start state, the rows form a
chain of at most 12 balance-decreasing months generated by `mkRow`,
and the refinance trigger updates the accumulated increase. -/
def LogOK (cfg : LoanConfig) (rs : List ℚ) (log : YearLog) : Prop :=
  log.rate = yearRate rs log.idx log.incStart ∧
  log.payment = yearPayment log.balStart log.rate log.monthsLeftStart ∧
  log.rows ≠ [] ∧
  log.rows.length ≤ 12 ∧
  RowChain log.balStart log.rows ∧
  (∀ row ∈ log.rows, ∃ m, row = mkRow cfg log.rate log.payment
    row.loan_start m) ∧
  (∀ row ∈ log.rows, 0 < row.loan_start ∧ row.loan_end ≤ row.loan_start) ∧
  PayoffLast log.rows ∧
  log.balEnd = (log.rows.getLastD dRow).loan_end ∧
  0 ≤ log.balEnd ∧ log.balEnd ≤ log.balStart ∧ 0 < log.balStart ∧
  0 ≤ log.incStart ∧ 0 < log.rate ∧
  log.incEnd = (if refinanceTrigger cfg log.idx log.balEnd
    then log.incStart + cfg.refinance_interest_will_increase
    else log.incStart) ∧
  log.incStart ≤ log.incEnd

/-- Cross-year chaining: consecutive year logs pass on the index,
balance and accumulated increase; remaining months are `12 * n`; every
year except the last runs its full 12 months with a positive ending
balance, and the last year ends at balance exactly 0. -/
def LogChain (cfg : LoanConfig) : ℕ → ℚ → ℚ → ℕ → List YearLog → Prop
  | _, _, _, _, [] => True
  | i, bal, inc, n, log :: rest =>
    log.idx = i ∧ log.balStart = bal ∧ log.incStart = inc ∧
    log.monthsLeftStart = 12 * n ∧ 1 ≤ n ∧
    (rest = [] → log.balEnd = 0) ∧
    (rest ≠ [] → log.rows.length = 12 ∧ 0 < log.balEnd) ∧
    LogChain cfg (i + 1) log.balEnd log.incEnd (n - 1) rest

theorem yearOut_def (cfg : LoanConfig) (rs : List ℚ) (i : ℕ) (bal : ℚ)
    (cm ml : ℕ) (inc : ℚ) :
    yearOut cfg rs i bal cm ml inc =
      runMonths cfg (yearRate rs i inc)
        (yearPayment bal (yearRate rs i inc) ml) 12 bal cm ml := rfl

theorem yearLogOf_ok (cfg : LoanConfig) (rs : List ℚ)
    (Hne : rs ≠ []) (Hrs : ∀ r ∈ rs, 0 < r)
    (Hadd : 0 ≤ cfg.additional_payment)
    (Htop : cfg.topup = true → 0 ≤ cfg.topup_amount)
    (Hinc : 0 ≤ cfg.refinance_interest_will_increase)
    (i cm ml : ℕ) (bal inc : ℚ)
    (hbal : 0 < bal) (hinc : 0 ≤ inc) (hml : 0 < ml) :
    LogOK cfg rs (yearLogOf cfg rs i bal cm ml inc) := by
  have hrate : 0 < yearRate rs i inc := yearRate_pos Hne Hrs i hinc
  have hpay : yearRate rs i inc / 12 * bal ≤
      yearPayment bal (yearRate rs i inc) ml :=
    yearPayment_ge (le_of_lt hbal) hrate hml
  obtain ⟨s₁, s₂, s₃, s₄, s₅, s₆, s₇, s₈, s₉⟩ :=
    runMonths_struct cfg (yearRate rs i inc)
      (yearPayment bal (yearRate rs i inc) ml) 12 bal cm ml
  obtain ⟨m₁, m₂, m₃⟩ :=
    runMonths_mono cfg (yearRate rs i inc)
      (yearPayment bal (yearRate rs i inc) ml) Hadd Htop (le_of_lt hrate)
      12 bal cm ml hbal hpay
  have hne12 : (runMonths cfg (yearRate rs i inc)
      (yearPayment bal (yearRate rs i inc) ml) 12 bal cm ml).rows ≠ [] := by
    intro hemp
    obtain ⟨-, h12⟩ := s₆ hemp
    exact absurd h12 (by norm_num)
  have hbalnn : 0 ≤ (runMonths cfg (yearRate rs i inc)
      (yearPayment bal (yearRate rs i inc) ml) 12 bal cm ml).bal := m₂
  refine ⟨rfl, rfl, hne12, s₁, s₄, s₅, m₃, s₉, s₇ hne12, hbalnn, m₁, hbal,
    hinc, hrate, rfl, ?_⟩
  show inc ≤ (if refinanceTrigger cfg i (yearOut cfg rs i bal cm ml inc).bal
    then inc + cfg.refinance_interest_will_increase else inc)
  split_ifs with h
  · linarith
  · exact le_refl inc

theorem runYears_master (cfg : LoanConfig) (rs : List ℚ)
    (Hne : rs ≠ []) (Hrs : ∀ r ∈ rs, 0 < r)
    (Hadd : 0 ≤ cfg.additional_payment)
    (Htop : cfg.topup = true → 0 ≤ cfg.topup_amount)
    (Hinc : 0 ≤ cfg.refinance_interest_will_increase) :
    ∀ (n i cm : ℕ) (bal inc : ℚ), 0 < bal → 0 ≤ inc → 1 ≤ n →
    ∃ logs, runYears cfg rs i n bal cm (12 * n) inc = .ok logs ∧
      logs ≠ [] ∧ logs.length ≤ n ∧
      (∀ log ∈ logs, LogOK cfg rs log) ∧
      LogChain cfg i bal inc n logs := by
  intro n
  induction n with
  | zero => intro i cm bal inc _ _ hn; omega
  | succ n ih =>
    intro i cm bal inc hbal hinc _
    have hrate : 0 < yearRate rs i inc := yearRate_pos Hne Hrs i hinc
    have hml : 0 < 12 * (n + 1) := by omega
    have hd : 0 < yearNomi (yearRate rs i inc) (12 * (n + 1)) - 1 :=
      yearDenomi_pos hrate hml
    have hpay : yearRate rs i inc / 12 * bal ≤
        yearPayment bal (yearRate rs i inc) (12 * (n + 1)) :=
      yearPayment_ge (le_of_lt hbal) hrate hml
    obtain ⟨s₁, s₂, s₃, s₄, s₅, s₆, s₇, s₈, s₉⟩ :=
      runMonths_struct cfg (yearRate rs i inc)
        (yearPayment bal (yearRate rs i inc) (12 * (n + 1))) 12 bal cm
        (12 * (n + 1))
    obtain ⟨m₁, m₂, m₃⟩ :=
      runMonths_mono cfg (yearRate rs i inc)
        (yearPayment bal (yearRate rs i inc) (12 * (n + 1))) Hadd Htop
        (le_of_lt hrate) 12 bal cm (12 * (n + 1)) hbal hpay
    have hlogok : LogOK cfg rs (yearLogOf cfg rs i bal cm (12 * (n + 1)) inc) :=
      yearLogOf_ok cfg rs Hne Hrs Hadd Htop Hinc i cm (12 * (n + 1)) bal inc
        hbal hinc hml
    simp only [runYears]
    rw [if_neg (ne_of_gt hd)]
    by_cases hout : (yearOut cfg rs i bal cm (12 * (n + 1)) inc).bal ≤ 0
    · rw [if_pos hout]
      refine ⟨[yearLogOf cfg rs i bal cm (12 * (n + 1)) inc], rfl, by simp,
        by simp, ?_, ?_⟩
      · intro log hlog
        rcases List.mem_singleton.1 hlog with rfl
        exact hlogok
      · refine ⟨rfl, rfl, rfl, rfl, by omega, ?_, ?_, trivial⟩
        · intro _
          have h0 : 0 ≤ (yearOut cfg rs i bal cm (12 * (n + 1)) inc).bal := m₂
          have : (yearLogOf cfg rs i bal cm (12 * (n + 1)) inc).balEnd =
              (yearOut cfg rs i bal cm (12 * (n + 1)) inc).bal := rfl
          rw [this]
          linarith
        · intro hne'
          exact absurd rfl hne'
    · rw [if_neg hout]
      have hbal' : 0 < (yearOut cfg rs i bal cm (12 * (n + 1)) inc).bal :=
        not_le.mp hout
      -- in the nominal final year the inner loop must reach payoff
      rcases Nat.eq_zero_or_pos n with rfl | hn'
      · exfalso
        have h12 : (12 : ℕ) * (0 + 1) = 12 := by norm_num
        have := yearOut_payoff cfg rs i cm bal inc Hadd Htop hrate
        rw [h12] at hbal'
        exact absurd this (not_le.mpr hbal')
      -- otherwise the year ran its full 12 months; recurse
      have hlen12 : (yearOut cfg rs i bal cm (12 * (n + 1)) inc).rows.length
          = 12 := s₈ hbal'
      have homl : (yearOut cfg rs i bal cm (12 * (n + 1)) inc).ml = 12 * n := by
        have := s₃
        rw [yearOut_def] at hlen12 ⊢
        omega
      have hinc2 : 0 ≤ (yearLogOf cfg rs i bal cm (12 * (n + 1)) inc).incEnd :=
        le_trans hinc hlogok.2.2.2.2.2.2.2.2.2.2.2.2.2.2.2
      obtain ⟨rest, hrest, hrne, hrlen, hrok, hrchain⟩ :=
        ih (i + 1) (yearOut cfg rs i bal cm (12 * (n + 1)) inc).cm
          (yearOut cfg rs i bal cm (12 * (n + 1)) inc).bal
          (yearLogOf cfg rs i bal cm (12 * (n + 1)) inc).incEnd
          hbal' hinc2 hn'
      rw [homl, hrest]
      refine ⟨yearLogOf cfg rs i bal cm (12 * (n + 1)) inc :: rest, rfl,
        by simp, by simp [Nat.succ_le_succ hrlen], ?_, ?_⟩
      · intro log hlog
        rcases List.mem_cons.1 hlog with rfl | hlog'
        · exact hlogok
        · exact hrok log hlog'
      · refine ⟨rfl, rfl, rfl, rfl, by omega, ?_, ?_, ?_⟩
        · intro hemp
          exact absurd hemp hrne
        · intro _
          exact ⟨hlen12, hbal'⟩
        · have hn1 : n + 1 - 1 = n := by omega
          rw [hn1]
          exact hrchain

/-! ### Facts about the extended rate list -/

theorem length_flatten_replicate (K : ℕ) (l : List ℚ) :
    (List.replicate K l).flatten.length = K * l.length := by
  induction K with
  | zero => simp
  | succ K ih =>
    rw [List.replicate_succ, List.flatten_cons, List.length_append, ih,
      Nat.succ_mul]
    omega

theorem getD_take (xs : List ℚ) :
    ∀ (n i : ℕ), i < n → ∀ d : ℚ, (xs.take n).getD i d = xs.getD i d := by
  induction xs with
  | nil => intro n i _ d; simp
  | cons x xs ih =>
    intro n i hi d
    cases n with
    | zero => omega
    | succ n =>
      cases i with
      | zero => rfl
      | succ i =>
        simp only [List.take_succ_cons, List.getD_cons_succ]
        exact ih n i (by omega) d

theorem getD_flatten_replicate (K : ℕ) (l : List ℚ) :
    ∀ i : ℕ, i < K * l.length →
    (List.replicate K l).flatten.getD i 0 = l.getD (i % l.length) 0 := by
  induction K with
  | zero => intro i hi; simp at hi
  | succ K ih =>
    intro i hi
    rw [List.replicate_succ, List.flatten_cons]
    by_cases h : i < l.length
    · rw [List.getD_append _ _ _ _ h, Nat.mod_eq_of_lt h]
    · push_neg at h
      rw [List.getD_append_right _ _ _ _ h]
      have hi' : i - l.length < K * l.length := by
        rw [Nat.succ_mul] at hi
        omega
      rw [ih (i - l.length) hi', Nat.mod_eq_sub_mod h]

theorem years_lt_tile (years cyc : ℕ) (hcyc : 0 < cyc) :
    years < (years / cyc + 1) * cyc := by
  have h1 := Nat.div_add_mod years cyc
  have h2 := Nat.mod_lt years hcyc
  calc years = cyc * (years / cyc) + years % cyc := h1.symm
    _ < cyc * (years / cyc) + cyc := by omega
    _ = (years / cyc + 1) * cyc := by ring

theorem ratesExtended_pos (cfg : LoanConfig)
    (hrs : ∀ r ∈ cfg.interest_rates_100, 0 < r) :
    ∀ r ∈ ratesExtended cfg, 0 < r := by
  intro r hr
  unfold ratesExtended at hr
  split_ifs at hr with h
  · have hr1 := List.take_subset cfg.years _ hr
    obtain ⟨l', hl', hrl'⟩ := List.mem_flatten.1 hr1
    have := List.eq_of_mem_replicate hl'
    subst this
    exact hrs r (List.take_subset _ _ hrl')
  · exact hrs r hr

theorem ratesExtended_length_refinance (cfg : LoanConfig)
    (h : cfg.refinance = true)
    (hcyc : 0 < cfg.refinance_every_x_years)
    (hlen : cfg.refinance_every_x_years ≤ cfg.interest_rates_100.length) :
    (ratesExtended cfg).length = cfg.years := by
  unfold ratesExtended
  rw [if_pos h, List.length_take, length_flatten_replicate,
    List.length_take, min_eq_left hlen]
  exact min_eq_left (le_of_lt (years_lt_tile cfg.years _ hcyc))

theorem ratesExtended_refinance_getD (cfg : LoanConfig)
    (h : cfg.refinance = true)
    (hcyc : 0 < cfg.refinance_every_x_years)
    (hlen : cfg.refinance_every_x_years ≤ cfg.interest_rates_100.length) :
    ∀ i < cfg.years, (ratesExtended cfg).getD i 0 =
      cfg.interest_rates_100.getD (i % cfg.refinance_every_x_years) 0 := by
  intro i hi
  unfold ratesExtended
  rw [if_pos h, getD_take _ _ _ hi]
  have hclen : (cfg.interest_rates_100.take
      cfg.refinance_every_x_years).length = cfg.refinance_every_x_years := by
    rw [List.length_take]
    exact min_eq_left hlen
  have hi' : i < (cfg.years / cfg.refinance_every_x_years + 1) *
      (cfg.interest_rates_100.take cfg.refinance_every_x_years).length := by
    rw [hclen]
    exact lt_of_lt_of_le hi (le_of_lt (years_lt_tile cfg.years _ hcyc))
  rw [getD_flatten_replicate _ _ i hi', hclen]
  exact getD_take _ _ _ (Nat.mod_lt i hcyc) 0

theorem ratesExtended_ne_nil (cfg : LoanConfig) (h : ValidConfig cfg) :
    ratesExtended cfg ≠ [] := by
  by_cases hr : cfg.refinance = true
  · have hlen := ratesExtended_length_refinance cfg hr
      (h.2.2.2.2.2.2.2.2.2.1 hr).1 (h.2.2.2.2.2.2.2.2.2.1 hr).2
    intro hemp
    rw [hemp] at hlen
    simp at hlen
    have hy := h.2.1
    omega
  · unfold ratesExtended
    rw [if_neg (by simpa using hr)]
    exact h.2.2.1

/-! ### The engine-level master theorem -/

theorem engine_master (cfg : LoanConfig) (h : ValidConfig cfg) :
    ∃ logs, runEngine cfg = .ok logs ∧
      calculate_monthly_payment cfg = .ok (rowsOf logs) ∧
      logs ≠ [] ∧ logs.length ≤ cfg.years ∧
      (∀ log ∈ logs, LogOK cfg (ratesExtended cfg) log) ∧
      LogChain cfg 0 cfg.loan 0 cfg.years logs := by
  have hcv := validConfig_codeValid h
  have hne := ratesExtended_ne_nil cfg h
  have hpos := ratesExtended_pos cfg h.2.2.2.1
  have hadd : 0 ≤ cfg.additional_payment := h.2.2.2.2.2.1
  have htop : cfg.topup = true → 0 ≤ cfg.topup_amount :=
    fun ht => le_of_lt (h.2.2.2.2.2.2.2.2.2.2 ht).2
  have hinc : 0 ≤ cfg.refinance_interest_will_increase :=
    h.2.2.2.2.2.2.2.2.1
  obtain ⟨logs, hrun, hlne, hllen, hlok, hlch⟩ :=
    runYears_master cfg (ratesExtended cfg) hne hpos hadd htop hinc
      cfg.years 0 0 cfg.loan 0 h.1 (le_refl 0) h.2.1
  have heng : runEngine cfg = .ok logs := by
    unfold runEngine
    rw [if_pos hcv, Nat.mul_comm cfg.years 12]
    exact hrun
  refine ⟨logs, heng, ?_, hlne, hllen, hlok, hlch⟩
  unfold calculate_monthly_payment
  rw [heng]
  rfl

/-- The yearly loop itself never signals `invalidInput`: validation
happens only up front. -/
theorem runYears_never_invalid (cfg : LoanConfig) (rs : List ℚ) :
    ∀ (n i cm : ℕ) (bal : ℚ) (ml : ℕ) (inc : ℚ),
    runYears cfg rs i n bal cm ml inc ≠ .error .invalidInput := by
  intro n
  induction n with
  | zero =>
    intro i cm bal ml inc
    simp [runYears]
  | succ n ih =>
    intro i cm bal ml inc
    simp only [runYears]
    split_ifs with h₁ h₂
    · simp
    · simp
    · rcases hrec : runYears cfg rs (i + 1) n (yearOut cfg rs i bal cm ml inc).bal
        (yearOut cfg rs i bal cm ml inc).cm (yearOut cfg rs i bal cm ml inc).ml
        (yearLogOf cfg rs i bal cm ml inc).incEnd with l | e
      · intro hcon
        have he : l = EngineError.invalidInput := by
          simpa [Except.map] using hcon
        rw [he] at hrec
        exact ih _ _ _ _ _ hrec
      · simp [Except.map]

/-! ### Flattening the per-year logs to the emitted schedule -/

theorem getLastD_congr {α : Type} (l : List α) (h : l ≠ []) (d₁ d₂ : α) :
    l.getLastD d₁ = l.getLastD d₂ := by
  cases l with
  | nil => exact absurd rfl h
  | cons a l => rfl

theorem getLastD_append {α : Type} (ys : List α) (hys : ys ≠ []) :
    ∀ (xs : List α) (d : α), (xs ++ ys).getLastD d = ys.getLastD d := by
  intro xs
  induction xs with
  | nil => intro d; rfl
  | cons x xs ih =>
    intro d
    rw [List.cons_append, List.getLastD_cons, ih x]
    exact getLastD_congr ys hys x d

theorem getLastD_mem {α : Type} (l : List α) (h : l ≠ []) (d : α) :
    l.getLastD d ∈ l := by
  induction l with
  | nil => exact absurd rfl h
  | cons a l ih =>
    rw [List.getLastD_cons]
    cases l with
    | nil => simp
    | cons b l' => exact List.mem_cons_of_mem _ (ih (by simp) )

theorem headI_mem {α : Type} [Inhabited α] (l : List α) (h : l ≠ []) :
    l.headI ∈ l := by
  cases l with
  | nil => exact absurd rfl h
  | cons a l => exact List.mem_cons_self a l

theorem mem_rowsOf {row : Row} {logs : List YearLog} :
    row ∈ rowsOf logs ↔ ∃ log ∈ logs, row ∈ log.rows := by
  unfold rowsOf
  simp

theorem rowsOf_cons (log : YearLog) (rest : List YearLog) :
    rowsOf (log :: rest) = log.rows ++ rowsOf rest := by
  unfold rowsOf
  simp

theorem rowsOf_ne_nil {logs : List YearLog} (hlne : logs ≠ [])
    (hok : ∀ log ∈ logs, log.rows ≠ []) : rowsOf logs ≠ [] := by
  cases logs with
  | nil => exact absurd rfl hlne
  | cons log rest =>
    rw [rowsOf_cons]
    have := hok log (by simp)
    intro hemp
    rcases List.append_eq_nil.1 hemp with ⟨h1, -⟩
    exact this h1

theorem rowsOf_length_le {logs : List YearLog}
    (hok : ∀ log ∈ logs, log.rows.length ≤ 12) :
    (rowsOf logs).length ≤ 12 * logs.length := by
  induction logs with
  | nil => simp [rowsOf]
  | cons log rest ih =>
    rw [rowsOf_cons, List.length_append]
    have h1 := hok log (by simp)
    have h2 := ih (fun l hl => hok l (List.mem_cons_of_mem _ hl))
    simp only [List.length_cons]
    omega

theorem logs_rows_chain (cfg : LoanConfig) (rs : List ℚ) :
    ∀ (logs : List YearLog) (i : ℕ) (bal inc : ℚ) (n : ℕ),
    (∀ log ∈ logs, LogOK cfg rs log) → LogChain cfg i bal inc n logs →
    RowChain bal (rowsOf logs) := by
  intro logs
  induction logs with
  | nil => intro i bal inc n _ _; trivial
  | cons log rest ih =>
    intro i bal inc n hok hch
    obtain ⟨-, hbs, -, -, -, -, -, hch'⟩ := hch
    obtain ⟨-, -, hne', -, hchain', -, -, -, hbe, -⟩ := hok log (by simp)
    rw [rowsOf_cons]
    refine RowChain_append ?_ hne' ?_
    · rw [← hbs]; exact hchain'
    · rw [← hbe]
      exact ih (i + 1) log.balEnd log.incEnd (n - 1)
        (fun l hl => hok l (List.mem_cons_of_mem _ hl)) hch'

theorem logs_last_balEnd (cfg : LoanConfig) :
    ∀ (logs : List YearLog) (i : ℕ) (bal inc : ℚ) (n : ℕ),
    LogChain cfg i bal inc n logs → logs ≠ [] →
    (logs.getLastD dLog).balEnd = 0 := by
  intro logs
  induction logs with
  | nil => intro i bal inc n _ h; exact absurd rfl h
  | cons log rest ih =>
    intro i bal inc n hch _
    obtain ⟨-, -, -, -, -, hlast, -, hch'⟩ := hch
    cases rest with
    | nil =>
      rw [List.getLastD_cons]
      exact hlast rfl
    | cons b rest' =>
      rw [List.getLastD_cons,
        getLastD_congr (b :: rest') (by simp) log dLog]
      exact ih (i + 1) log.balEnd log.incEnd (n - 1) hch' (by simp)

theorem rowsOf_getLastD {logs : List YearLog} (hlne : logs ≠ [])
    (hok : ∀ log ∈ logs, log.rows ≠ []) :
    (rowsOf logs).getLastD dRow =
      ((logs.getLastD dLog).rows).getLastD dRow := by
  induction logs with
  | nil => exact absurd rfl hlne
  | cons log rest ih =>
    rw [rowsOf_cons]
    cases rest with
    | nil =>
      rw [List.getLastD_cons]
      unfold rowsOf
      simp
    | cons b rest' =>
      have hrne : rowsOf (b :: rest') ≠ [] :=
        rowsOf_ne_nil (by simp)
          (fun l hl => hok l (List.mem_cons_of_mem _ hl))
      rw [getLastD_append _ hrne,
        ih (by simp) (fun l hl => hok l (List.mem_cons_of_mem _ hl))]
      simp [List.getLastD_cons]

theorem rowsOf_payoffLast (cfg : LoanConfig) (rs : List ℚ) :
    ∀ (logs : List YearLog) (i : ℕ) (bal inc : ℚ) (n : ℕ),
    (∀ log ∈ logs, LogOK cfg rs log) → LogChain cfg i bal inc n logs →
    PayoffLast (rowsOf logs) := by
  intro logs
  induction logs with
  | nil => intro i bal inc n _ _; trivial
  | cons log rest ih =>
    intro i bal inc n hok hch
    obtain ⟨-, -, -, -, -, -, hfull, hch'⟩ := hch
    obtain ⟨-, -, hne', -, -, -, -, hpl, hbe, -⟩ := hok log (by simp)
    rw [rowsOf_cons]
    cases rest with
    | nil =>
      unfold rowsOf
      simpa using hpl
    | cons b rest' =>
      obtain ⟨-, hbpos⟩ := hfull (by simp)
      refine PayoffLast_append ?_
        (ih (i + 1) log.balEnd log.incEnd (n - 1)
          (fun l hl => hok l (List.mem_cons_of_mem _ hl)) hch')
      exact PayoffLast_all hpl (by rw [← hbe]; exact hbpos)

theorem LogChain_mem (cfg : LoanConfig) :
    ∀ (logs : List YearLog) (i : ℕ) (bal inc : ℚ) (n : ℕ),
    LogChain cfg i bal inc n logs →
    ∀ log ∈ logs, i ≤ log.idx ∧ log.idx < i + n ∧
      log.monthsLeftStart = 12 * (n - (log.idx - i)) := by
  intro logs
  induction logs with
  | nil => intro i bal inc n _ log hl; cases hl
  | cons a rest ih =>
    intro i bal inc n hch log hl
    obtain ⟨hidx, -, -, hml, hn, -, -, hch'⟩ := hch
    rcases List.mem_cons.1 hl with rfl | hl'
    · refine ⟨le_of_eq hidx.symm, ?_, ?_⟩
      · omega
      · rw [hidx, hml]
        congr 1
        omega
    · obtain ⟨h1, h2, h3⟩ := ih (i + 1) a.balEnd a.incEnd (n - 1) hch' log hl'
      refine ⟨by omega, by omega, ?_⟩
      rw [h3]
      congr 1
      omega

/-- Successive year logs pass the accumulated rate increase along. -/
def IncSucc : List YearLog → Prop
  | [] => True
  | [_] => True
  | a :: b :: rest => b.incStart = a.incEnd ∧ IncSucc (b :: rest)

theorem LogChain_incSucc (cfg : LoanConfig) :
    ∀ (logs : List YearLog) (i : ℕ) (bal inc : ℚ) (n : ℕ),
    LogChain cfg i bal inc n logs → IncSucc logs := by
  intro logs
  induction logs with
  | nil => intro i bal inc n _; trivial
  | cons a rest ih =>
    intro i bal inc n hch
    obtain ⟨-, -, -, -, -, -, -, hch'⟩ := hch
    cases rest with
    | nil => trivial
    | cons b rest' =>
      exact ⟨hch'.2.2.1, ih (i + 1) a.balEnd a.incEnd (n - 1) hch'⟩

/-! ### Claim theorems -/

theorem calculate_rows_eq {cfg : LoanConfig} {rows : List Row}
    {logs : List YearLog}
    (hok : calculate_monthly_payment cfg = .ok rows)
    (hcalc : calculate_monthly_payment cfg = .ok (rowsOf logs)) :
    rows = rowsOf logs := by
  rw [hok] at hcalc
  exact Except.ok.inj hcalc

/-- C1: for every valid `LoanConfig` and every row of the schedule
returned by `calculate_monthly_payment`, the payoff clamp cascade keeps
the running balance non-negative (`loan_end ≥ 0`), and in a payoff month
(`loan_end ≤ 0`) the four balance-reducing components absorb the
residual balance exactly, with exactly one of them clamped, in the
strict priority order principal, else minimum, else additional, else
top-up. -/
theorem C1_payoff_clamp_cascade (cfg : LoanConfig) (rows : List Row)
    (hv : ValidConfig cfg)
    (hok : calculate_monthly_payment cfg = .ok rows) :
    ∀ row ∈ rows, 0 ≤ row.loan_end ∧
      (row.loan_end ≤ 0 →
        row.principal + row.minimum_monthly_payment +
          row.additional_payment + row.topup = row.loan_start ∧
        ExactlyOneAbsorb row) := by
  obtain ⟨logs, -, hcalc, -, -, hlok, -⟩ := engine_master cfg hv
  obtain rfl := calculate_rows_eq hok hcalc
  intro row hrow
  obtain ⟨log, hlog, hrl⟩ := mem_rowsOf.1 hrow
  obtain ⟨m, hm⟩ := (hlok log hlog).2.2.2.2.2.1 row hrl
  have hnn := mkRow_loan_end_nonneg cfg log.rate log.payment row.loan_start m
  rw [← hm] at hnn
  refine ⟨hnn, ?_⟩
  intro hend
  have hle := mkRow_loan_end cfg log.rate log.payment row.loan_start m
  rw [← hm] at hle
  have hls := mkRow_loan_start cfg log.rate log.payment row.loan_start m
  rw [← hm] at hls
  constructor
  · rw [hls] at hle
    linarith
  · rw [hm] at hend ⊢
    exact ⟨mkRow_payoff cfg log.rate log.payment row.loan_start m hend,
      absorb_pairwise_exclusive _⟩

/-- C2: every row of the schedule satisfies the two accounting
identities: the total payment is the sum of the principal, interest,
minimum, additional and top-up components, and the ending balance is the
starting balance minus all components except interest. -/
theorem C2_row_identities (cfg : LoanConfig) (rows : List Row)
    (hv : ValidConfig cfg)
    (hok : calculate_monthly_payment cfg = .ok rows) :
    ∀ row ∈ rows,
      row.total = row.principal + row.interest +
        row.minimum_monthly_payment + row.additional_payment + row.topup ∧
      row.loan_end = row.loan_start - (row.principal +
        row.minimum_monthly_payment + row.additional_payment + row.topup) := by
  obtain ⟨logs, -, hcalc, -, -, hlok, -⟩ := engine_master cfg hv
  obtain rfl := calculate_rows_eq hok hcalc
  intro row hrow
  obtain ⟨log, hlog, hrl⟩ := mem_rowsOf.1 hrow
  obtain ⟨m, hm⟩ := (hlok log hlog).2.2.2.2.2.1 row hrl
  constructor
  · have h := mkRow_total cfg log.rate log.payment row.loan_start m
    rw [← hm] at h
    exact h
  · have h := mkRow_loan_end cfg log.rate log.payment row.loan_start m
    rw [← hm] at h
    exact h

/-- C3: for every valid `LoanConfig` the schedule terminates exactly at
payoff: `loan_end` is non-increasing across rows, there are at most
`term_years * 12` rows, the schedule is non-empty with final
`loan_end ≤ 0`, no row starts at a non-positive balance, and every row
except the last has a positive ending balance (no row is emitted after
the payoff month). -/
theorem C3_payoff_termination (cfg : LoanConfig) (rows : List Row)
    (hv : ValidConfig cfg)
    (hok : calculate_monthly_payment cfg = .ok rows) :
    RowsLE rows ∧ rows.length ≤ cfg.years * 12 ∧ rows ≠ [] ∧
    (rows.getLastD dRow).loan_end ≤ 0 ∧
    (∀ row ∈ rows, 0 < row.loan_start) ∧
    PayoffLast rows := by
  obtain ⟨logs, -, hcalc, hlne, hllen, hlok, hlch⟩ := engine_master cfg hv
  obtain rfl := calculate_rows_eq hok hcalc
  have hrowsne : ∀ log ∈ logs, log.rows ≠ [] :=
    fun log hl => (hlok log hl).2.2.1
  refine ⟨?_, ?_, ?_, ?_, ?_, ?_⟩
  · refine RowsLE_of_chain
      (logs_rows_chain cfg (ratesExtended cfg) logs 0 cfg.loan 0 cfg.years
        hlok hlch) ?_
    intro row hrow
    obtain ⟨log, hlog, hrl⟩ := mem_rowsOf.1 hrow
    exact ((hlok log hlog).2.2.2.2.2.2.1 row hrl).2
  · calc (rowsOf logs).length
        ≤ 12 * logs.length :=
          rowsOf_length_le (fun log hl => (hlok log hl).2.2.2.1)
      _ ≤ 12 * cfg.years := by omega
      _ = cfg.years * 12 := Nat.mul_comm _ _
  · exact rowsOf_ne_nil hlne hrowsne
  · rw [rowsOf_getLastD hlne hrowsne]
    have hlastmem := getLastD_mem logs hlne dLog
    have hbe := (hlok _ hlastmem).2.2.2.2.2.2.2.2.1
    rw [← hbe]
    exact le_of_eq (logs_last_balEnd cfg logs 0 cfg.loan 0 cfg.years hlch hlne)
  · intro row hrow
    obtain ⟨log, hlog, hrl⟩ := mem_rowsOf.1 hrow
    exact ((hlok log hlog).2.2.2.2.2.2.1 row hrl).1
  · exact rowsOf_payoffLast cfg (ratesExtended cfg) logs 0 cfg.loan 0
      cfg.years hlok hlch

/-! ### Concrete configurations used by the witnesses -/

/-- 100 at 1200% annual (monthly rate 1) over one year: small numbers
whose schedule the kernel evaluates quickly. -/
def cfgA : LoanConfig := ⟨100, 1, [1200], 0, 0, false, 3, 0, 1, false, 12, 5⟩

/-- The schedule of `cfgA`. -/
def rowsA : List Row := (calculate_monthly_payment cfgA).toOption.getD []

unseal Rat.mul Rat.add Rat.inv Rat.sub in
theorem calcA_ok : calculate_monthly_payment cfgA = .ok rowsA := rfl

unseal Rat.mul Rat.add Rat.inv Rat.sub in
theorem rowsA_ne : rowsA ≠ [] := by decide

unseal Rat.mul Rat.add Rat.inv Rat.sub in
theorem C1_witness : 0 ≤ (rowsA.getLastD dRow).loan_end ∧
    ((rowsA.getLastD dRow).loan_end ≤ 0 →
      (rowsA.getLastD dRow).principal +
        (rowsA.getLastD dRow).minimum_monthly_payment +
        (rowsA.getLastD dRow).additional_payment +
        (rowsA.getLastD dRow).topup = (rowsA.getLastD dRow).loan_start ∧
      ExactlyOneAbsorb (rowsA.getLastD dRow)) :=
  C1_payoff_clamp_cascade cfgA rowsA (by decide) calcA_ok
    (rowsA.getLastD dRow) (getLastD_mem rowsA rowsA_ne dRow)

unseal Rat.mul Rat.add Rat.inv Rat.sub in
theorem C2_witness : rowsA.headI.total = rowsA.headI.principal +
      rowsA.headI.interest + rowsA.headI.minimum_monthly_payment +
      rowsA.headI.additional_payment + rowsA.headI.topup ∧
    rowsA.headI.loan_end = rowsA.headI.loan_start - (rowsA.headI.principal +
      rowsA.headI.minimum_monthly_payment + rowsA.headI.additional_payment +
      rowsA.headI.topup) :=
  C2_row_identities cfgA rowsA (by decide) calcA_ok rowsA.headI
    (headI_mem rowsA rowsA_ne)

unseal Rat.mul Rat.add Rat.inv Rat.sub in
theorem C3_witness : RowsLE rowsA ∧ rowsA.length ≤ cfgA.years * 12 ∧
    rowsA ≠ [] ∧ (rowsA.getLastD dRow).loan_end ≤ 0 ∧
    (∀ row ∈ rowsA, 0 < row.loan_start) ∧ PayoffLast rowsA :=
  C3_payoff_termination cfgA rowsA (by decide) calcA_ok

/-- C4: at the start of each loan-year the engine recomputes the
standard fully-amortizing payment from the then-remaining balance (the
first row's starting balance of the year) and the then-remaining month
count (`12 * (term_years - year_index)`), using the annuity formula
`payment = balance * r * (1+r)^months / ((1+r)^months - 1)` with
`r = effective_annual_rate / 100 / 12`; within the year's up-to-12
months every non-payoff row satisfies
`principal + interest = payment` (the payment is held fixed), and each
year uses its own balance and month count (recomputed per year, not
globally). -/
theorem C4_annual_recompute (cfg : LoanConfig) (hv : ValidConfig cfg) :
    ∃ logs, runEngine cfg = .ok logs ∧
      calculate_monthly_payment cfg = .ok (rowsOf logs) ∧
      ∀ log ∈ logs,
        log.rate = (yearNominal (ratesExtended cfg) log.idx +
          log.incStart) / 100 ∧
        log.idx < cfg.years ∧
        log.monthsLeftStart = 12 * (cfg.years - log.idx) ∧
        log.balStart = log.rows.headI.loan_start ∧
        log.payment = log.balStart * (log.rate / 12) *
          (1 + log.rate / 12) ^ log.monthsLeftStart /
          ((1 + log.rate / 12) ^ log.monthsLeftStart - 1) ∧
        log.rows ≠ [] ∧ log.rows.length ≤ 12 ∧
        (∀ row ∈ log.rows, row.interest_rate_yearly = log.rate ∧
          (0 < row.loan_end →
            row.principal + row.interest = log.payment)) := by
  obtain ⟨logs, heng, hcalc, hlne, -, hlok, hlch⟩ := engine_master cfg hv
  refine ⟨logs, heng, hcalc, ?_⟩
  intro log hlog
  obtain ⟨hrate, hpay, hne', hlen', hchain', hrep, -⟩ := hlok log hlog
  obtain ⟨h1, h2, h3⟩ := LogChain_mem cfg logs 0 cfg.loan 0 cfg.years hlch
    log hlog
  refine ⟨hrate, by omega, by simpa using h3,
    (RowChain_head hchain' hne').symm, hpay, hne', hlen', ?_⟩
  intro row hrw
  obtain ⟨m, hm⟩ := hrep row hrw
  constructor
  · rw [hm]
    exact mkRow_rate cfg log.rate log.payment row.loan_start m
  · intro hpos
    rw [hm] at hpos
    have hu := (mkRow_unclamped cfg log.rate log.payment row.loan_start m
      hpos).1
    have hi := mkRow_interest cfg log.rate log.payment row.loan_start m
    rw [← hm] at hu hi
    rw [hu, hi]
    ring

theorem C4_witness : ∃ logs, runEngine cfgA = .ok logs ∧
    calculate_monthly_payment cfgA = .ok (rowsOf logs) ∧
    ∀ log ∈ logs,
      log.rate = (yearNominal (ratesExtended cfgA) log.idx +
        log.incStart) / 100 ∧
      log.idx < cfgA.years ∧
      log.monthsLeftStart = 12 * (cfgA.years - log.idx) ∧
      log.balStart = log.rows.headI.loan_start ∧
      log.payment = log.balStart * (log.rate / 12) *
        (1 + log.rate / 12) ^ log.monthsLeftStart /
        ((1 + log.rate / 12) ^ log.monthsLeftStart - 1) ∧
      log.rows ≠ [] ∧ log.rows.length ≤ 12 ∧
      (∀ row ∈ log.rows, row.interest_rate_yearly = log.rate ∧
        (0 < row.loan_end →
          row.principal + row.interest = log.payment)) :=
  C4_annual_recompute cfgA (by decide)

/-- C7: the nominal per-year rate schedule.  With refinancing enabled,
the first `refinance_cycle_years` rates are tiled to exactly
`term_years` entries, entry `i` being the supplied rate at index
`i % refinance_cycle_years`; with refinancing disabled, the supplied
sequence is used as-is, and the year-rate selection reuses the last
supplied rate for any year index at or beyond the list's length. -/
theorem C7_rate_schedule (cfg : LoanConfig) (hv : ValidConfig cfg) :
    (cfg.refinance = true →
      (ratesExtended cfg).length = cfg.years ∧
      ∀ i < cfg.years, (ratesExtended cfg).getD i 0 =
        cfg.interest_rates_100.getD (i % cfg.refinance_every_x_years) 0) ∧
    (cfg.refinance = false →
      ratesExtended cfg = cfg.interest_rates_100 ∧
      (∀ i, i < cfg.interest_rates_100.length →
        yearNominal cfg.interest_rates_100 i =
          cfg.interest_rates_100.getD i 0) ∧
      (∀ i, cfg.interest_rates_100.length ≤ i →
        yearNominal cfg.interest_rates_100 i =
          cfg.interest_rates_100.getLastD 0)) := by
  have hlenpos : 0 < cfg.interest_rates_100.length :=
    List.length_pos.mpr hv.2.2.1
  constructor
  · intro hr
    obtain ⟨hcyc, hlen⟩ := hv.2.2.2.2.2.2.2.2.2.1 hr
    exact ⟨ratesExtended_length_refinance cfg hr hcyc hlen,
      ratesExtended_refinance_getD cfg hr hcyc hlen⟩
  · intro hr
    refine ⟨?_, ?_, ?_⟩
    · unfold ratesExtended
      rw [if_neg (by simp [hr])]
    · intro i hi
      unfold yearNominal
      rw [if_pos (by omega)]
    · intro i hi
      unfold yearNominal
      rw [if_neg (by omega)]

/-- Configuration with refinancing enabled (cycle 1 year, threshold
below the balance reached after year 1) used by the witnesses. -/
def cfgB : LoanConfig := ⟨1200, 2, [1200, 600], 0, 0, true, 1, 1199, 0,
  false, 12, 5⟩

theorem C7_witness : (cfgB.refinance = true →
      (ratesExtended cfgB).length = cfgB.years ∧
      ∀ i < cfgB.years, (ratesExtended cfgB).getD i 0 =
        cfgB.interest_rates_100.getD (i % cfgB.refinance_every_x_years) 0) ∧
    (cfgB.refinance = false →
      ratesExtended cfgB = cfgB.interest_rates_100 ∧
      (∀ i, i < cfgB.interest_rates_100.length →
        yearNominal cfgB.interest_rates_100 i =
          cfgB.interest_rates_100.getD i 0) ∧
      (∀ i, cfgB.interest_rates_100.length ≤ i →
        yearNominal cfgB.interest_rates_100 i =
          cfgB.interest_rates_100.getLastD 0)) :=
  C7_rate_schedule cfgB (by decide)

/-- C8: with refinancing enabled, the accumulated rate offset starts at
0, is passed from one year to the next, never decreases, increases by
`refinance_rate_increase_percent` exactly at the end of completed year
`i` when `(i+1) % refinance_cycle_years = 0` and the end-of-year balance
is at or below the threshold, and the effective rate of year `i` is
computed from the offset at the start of year `i` (so an increase only
affects subsequent years), every row of the year carrying that rate. -/
theorem C8_refinance_offset (cfg : LoanConfig) (hv : ValidConfig cfg)
    (hr : cfg.refinance = true) :
    ∃ logs, runEngine cfg = .ok logs ∧ logs ≠ [] ∧
      logs.headI.incStart = 0 ∧ IncSucc logs ∧
      ∀ log ∈ logs,
        log.incStart ≤ log.incEnd ∧
        log.incEnd = (if (log.idx + 1) % cfg.refinance_every_x_years = 0 ∧
            log.balEnd ≤ cfg.refinance_when_principal_hit
          then log.incStart + cfg.refinance_interest_will_increase
          else log.incStart) ∧
        log.rate = (yearNominal (ratesExtended cfg) log.idx +
          log.incStart) / 100 ∧
        ∀ row ∈ log.rows, row.interest_rate_yearly = log.rate := by
  obtain ⟨logs, heng, -, hlne, -, hlok, hlch⟩ := engine_master cfg hv
  refine ⟨logs, heng, hlne, ?_,
    LogChain_incSucc cfg logs 0 cfg.loan 0 cfg.years hlch, ?_⟩
  · cases logs with
    | nil => exact absurd rfl hlne
    | cons a rest => exact hlch.2.2.1
  · intro log hlog
    obtain ⟨hrate, -, -, -, -, hrep, -, -, -, -, -, -, -, -, hince, hincle⟩ :=
      hlok log hlog
    refine ⟨hincle, ?_, hrate, ?_⟩
    · rw [hince]
      simp only [refinanceTrigger, hr, true_and]
    · intro row hrw
      obtain ⟨m, hm⟩ := hrep row hrw
      rw [hm]
      exact mkRow_rate cfg log.rate log.payment row.loan_start m

theorem C8_witness : ∃ logs, runEngine cfgB = .ok logs ∧ logs ≠ [] ∧
    logs.headI.incStart = 0 ∧ IncSucc logs ∧
    ∀ log ∈ logs,
      log.incStart ≤ log.incEnd ∧
      log.incEnd = (if (log.idx + 1) % cfgB.refinance_every_x_years = 0 ∧
          log.balEnd ≤ cfgB.refinance_when_principal_hit
        then log.incStart + cfgB.refinance_interest_will_increase
        else log.incStart) ∧
      log.rate = (yearNominal (ratesExtended cfgB) log.idx +
        log.incStart) / 100 ∧
      ∀ row ∈ log.rows, row.interest_rate_yearly = log.rate :=
  C8_refinance_offset cfgB (by decide) rfl

theorem codeValid_iff_not_bad (cfg : LoanConfig) :
    codeValid cfg ↔
      ¬(cfg.interest_rates_100 = [] ∨
        (∃ r ∈ cfg.interest_rates_100, r ≤ 0) ∨
        cfg.loan ≤ cfg.refinance_when_principal_hit ∨
        (cfg.refinance = true ∧ (cfg.refinance_every_x_years ≤ 0 ∨
          cfg.interest_rates_100.length < cfg.refinance_every_x_years)) ∨
        (cfg.topup = true ∧ (cfg.topup_every_x_month ≤ 0 ∨
          cfg.topup_amount ≤ 0))) := by
  unfold codeValid
  constructor
  · rintro ⟨h1, h2, h3, h4, h5⟩
    push_neg
    refine ⟨h1, ?_, h3, ?_, ?_⟩
    · intro r hr
      exact h2 r hr
    · intro hrf
      obtain ⟨hc, hl⟩ := h4 hrf
      constructor <;> omega
    · intro ht
      obtain ⟨hc, hl⟩ := h5 ht
      constructor
      · omega
      · exact hl
  · intro hn
    push_neg at hn
    obtain ⟨h1, h2, h3, h4, h5⟩ := hn
    refine ⟨h1, h2, h3, ?_, ?_⟩
    · intro hrf
      obtain ⟨hc, hl⟩ := h4 hrf
      constructor <;> omega
    · intro ht
      obtain ⟨hc, hl⟩ := h5 ht
      exact ⟨by omega, hl⟩

/-- C5: `calculate_monthly_payment` fails with `invalidInput` exactly
when one of the preconditions is violated: empty rates, a rate ≤ 0, a
refinance threshold at or above the principal, refinancing enabled with
a non-positive cycle or fewer rates than the cycle length, or top-up
enabled with a non-positive period or amount.  Validation happens before
any computation: when all preconditions hold the result is never
`invalidInput`. -/
theorem C5_validation (cfg : LoanConfig) :
    calculate_monthly_payment cfg = .error .invalidInput ↔
      (cfg.interest_rates_100 = [] ∨
       (∃ r ∈ cfg.interest_rates_100, r ≤ 0) ∨
       cfg.loan ≤ cfg.refinance_when_principal_hit ∨
       (cfg.refinance = true ∧ (cfg.refinance_every_x_years ≤ 0 ∨
         cfg.interest_rates_100.length < cfg.refinance_every_x_years)) ∨
       (cfg.topup = true ∧ (cfg.topup_every_x_month ≤ 0 ∨
         cfg.topup_amount ≤ 0))) := by
  constructor
  · intro h
    by_contra hR
    have hv : codeValid cfg := (codeValid_iff_not_bad cfg).mpr hR
    unfold calculate_monthly_payment runEngine at h
    rw [if_pos hv] at h
    rcases hrun : runYears cfg (ratesExtended cfg) 0 cfg.years cfg.loan 0
        (cfg.years * 12) 0 with e | logs
    · rw [hrun] at h
      have he : e = EngineError.invalidInput := by
        simpa [Except.map] using h
      rw [he] at hrun
      exact runYears_never_invalid cfg _ _ _ _ _ _ _ hrun
    · rw [hrun] at h
      simp [Except.map] at h
  · intro hR
    have hnv : ¬codeValid cfg := fun hv => (codeValid_iff_not_bad cfg).mp hv hR
    unfold calculate_monthly_payment runEngine
    rw [if_neg hnv]
    rfl

/-- C10 (implicit): with `term_years = 0`, non-empty positive rates, a
threshold strictly below the principal, and refinancing and top-up
disabled, the engine raises no error and returns the empty schedule —
it never validates `term_years ≥ 1` or `principal > 0` (the principal,
payments and remaining parameters are arbitrary). -/
theorem C10_zero_term (loan minp addp thr rinc tam : ℚ) (recy tem : ℕ)
    (rates : List ℚ) (h1 : rates ≠ []) (h2 : ∀ r ∈ rates, 0 < r)
    (h3 : thr < loan) :
    calculate_monthly_payment
      ⟨loan, 0, rates, minp, addp, false, recy, thr, rinc, false, tem, tam⟩ =
      .ok [] := by
  have hcv : codeValid
      ⟨loan, 0, rates, minp, addp, false, recy, thr, rinc, false, tem, tam⟩ := by
    refine ⟨h1, h2, h3, ?_, ?_⟩ <;> intro h <;> simp at h
  unfold calculate_monthly_payment runEngine
  rw [if_pos hcv]
  rfl

theorem C10_witness : calculate_monthly_payment
    ⟨100, 0, [5], 0, 0, false, 3, 0, 1, false, 12, 5⟩ = .ok [] :=
  C10_zero_term 100 0 0 0 1 5 3 12 [5] (by decide) (by decide) (by decide)

/-- Input for C6: passes every `assert` of the source (rates positive,
threshold below the loan, refinance cycle valid), but carries a negative
`refinance_interest_will_increase` of exactly minus the only rate; after
the year-1 refinance event the year-2 effective rate is 0. -/
def cfgZ : LoanConfig := ⟨1200, 2, [1200], 0, 0, true, 1, 11999/10, -1200,
  false, 12, 5⟩

unseal Rat.mul Rat.add Rat.inv Rat.sub in
/-- C6: the code has no zero-rate special case.  On `cfgZ` — an input
accepted by all of the source's `assert`s — the effective monthly rate
of year 2 is 0, the annuity denominator `(1+0)^12 - 1` is 0, and the
engine signals the division by zero (`ZeroDivisionError` in the source)
instead of returning a schedule with `payment = balance / months`. -/
theorem C6_zero_rate_divzero :
    calculate_monthly_payment cfgZ = .error .divByZero := rfl

/-! ### The integer-truncating engine variant
(`mortgage_calculator/logic.py`).  Python's `int()` truncates toward
zero; the variant has no top-up support, no threshold assertion, and it
mutates `minimum_monthly_payment` / `additional_payment` inside the
loop, so both travel in the loop state.  The rate-list extension,
year-rate selection, annuity formula and refinance trigger are
character-for-character the same code as in the canonical engine, so
those embeddings are shared. -/

/-- Python `int()` on a float/rational: truncation toward zero. -/
def qtrunc (x : ℚ) : ℚ := if 0 ≤ x then ((⌊x⌋ : ℤ) : ℚ) else ((⌈x⌉ : ℤ) : ℚ)

/-- One emitted row of the truncating variant's `hist` (no `topup`
column). -/
structure Row2 where
  loan_start : ℚ
  interest_rate_yearly : ℚ
  total : ℚ
  principal : ℚ
  interest : ℚ
  minimum_monthly_payment : ℚ
  additional_payment : ℚ
  loan_end : ℚ
deriving DecidableEq

/-- Default `Row2` (default of `List.getD`/`List.getLastD`). -/
def dRow2 : Row2 := ⟨0, 0, 0, 0, 0, 0, 0, 0⟩

instance : Inhabited Row2 := ⟨dRow2⟩

/-- One month of the truncating variant's inner loop: truncated
interest, the `total` cascade (standard payment, else clamped balance,
else `int(max(required, minimum))` plus additional with its own clamp),
`principal = total - interest`, and the mutated
`minimum_monthly_payment` / `additional_payment` carried forward. -/
def month2 (rate irm required bal mp ap : ℚ) : Row2 × ℚ × ℚ × ℚ :=
  let interest := qtrunc (irm * bal)
  let tma : ℚ × ℚ × ℚ :=
    if required ≥ bal then (qtrunc bal, 0, 0)
    else if mp ≥ bal then (qtrunc bal, qtrunc bal, 0)
    else
      let t0 := qtrunc (max required mp)
      if t0 + ap ≥ bal then (t0, mp, qtrunc (bal - t0))
      else (t0 + ap, mp, ap)
  let principal := tma.1 - interest
  (⟨bal, rate, tma.1, principal, interest, tma.2.1, tma.2.2,
    bal - principal⟩,
   bal - principal, tma.2.1, tma.2.2)

/-- Inner-loop result of the truncating variant: rows, balance, the two
mutated payment parameters, and the remaining-month count. -/
structure MonthsOut2 where
  rows : List Row2
  bal : ℚ
  mp : ℚ
  ap : ℚ
  ml : ℕ
deriving DecidableEq

/-- The truncating variant's `for j in range(12)` loop. -/
def runMonths2 (rate irm required : ℚ) :
    ℕ → ℚ → ℚ → ℚ → ℕ → MonthsOut2
  | 0, bal, mp, ap, ml => ⟨[], bal, mp, ap, ml⟩
  | fuel + 1, bal, mp, ap, ml =>
    let r := month2 rate irm required bal mp ap
    if r.2.1 ≤ 0 then ⟨[r.1], r.2.1, r.2.2.1, r.2.2.2, ml - 1⟩
    else
      let rest := runMonths2 rate irm required fuel r.2.1 r.2.2.1 r.2.2.2
        (ml - 1)
      ⟨r.1 :: rest.rows, rest.bal, rest.mp, rest.ap, rest.ml⟩

/-- The truncating variant's yearly loop. -/
def runYears2 (cfg : LoanConfig) (rs : List ℚ) :
    ℕ → ℕ → ℚ → ℚ → ℚ → ℕ → ℚ → Except EngineError (List Row2)
  | _, 0, _, _, _, _, _ => .ok []
  | i, fuel + 1, bal, mp, ap, ml, inc =>
    if yearNomi (yearRate rs i inc) ml - 1 = 0 then .error .divByZero
    else
      if (runMonths2 (yearRate rs i inc) (yearRate rs i inc / 12)
          (yearPayment bal (yearRate rs i inc) ml) 12 bal mp ap ml).bal ≤ 0
      then .ok (runMonths2 (yearRate rs i inc) (yearRate rs i inc / 12)
          (yearPayment bal (yearRate rs i inc) ml) 12 bal mp ap ml).rows
      else
        (runYears2 cfg rs (i + 1) fuel
          (runMonths2 (yearRate rs i inc) (yearRate rs i inc / 12)
            (yearPayment bal (yearRate rs i inc) ml) 12 bal mp ap ml).bal
          (runMonths2 (yearRate rs i inc) (yearRate rs i inc / 12)
            (yearPayment bal (yearRate rs i inc) ml) 12 bal mp ap ml).mp
          (runMonths2 (yearRate rs i inc) (yearRate rs i inc / 12)
            (yearPayment bal (yearRate rs i inc) ml) 12 bal mp ap ml).ap
          (runMonths2 (yearRate rs i inc) (yearRate rs i inc / 12)
            (yearPayment bal (yearRate rs i inc) ml) 12 bal mp ap ml).ml
          (if refinanceTrigger cfg i
              (runMonths2 (yearRate rs i inc) (yearRate rs i inc / 12)
                (yearPayment bal (yearRate rs i inc) ml) 12 bal mp ap ml).bal
           then inc + cfg.refinance_interest_will_increase else inc)).map
          ((runMonths2 (yearRate rs i inc) (yearRate rs i inc / 12)
            (yearPayment bal (yearRate rs i inc) ml) 12 bal mp ap ml).rows
            ++ ·)

/-- The truncating variant's `assert` block: rates non-empty and
positive, refinance cycle checks — no threshold assertion and no top-up
parameters. -/
def codeValid2 (cfg : LoanConfig) : Prop :=
  cfg.interest_rates_100 ≠ [] ∧
  (∀ r ∈ cfg.interest_rates_100, 0 < r) ∧
  (cfg.refinance = true →
    0 < cfg.refinance_every_x_years ∧
    cfg.refinance_every_x_years ≤ cfg.interest_rates_100.length)

instance (cfg : LoanConfig) : Decidable (codeValid2 cfg) := by
  unfold codeValid2; exact inferInstance

/-- `calculate_monthly_payment` of `mortgage_calculator/logic.py` (the
`topup*` fields of the record are not part of this variant's parameter
list and are ignored). -/
def calculate2 (cfg : LoanConfig) : Except EngineError (List Row2) :=
  if codeValid2 cfg then
    runYears2 cfg (ratesExtended cfg) 0 cfg.years cfg.loan
      cfg.minimum_monthly_payment cfg.additional_payment (cfg.years * 12) 0
  else .error .invalidInput

theorem headI_append {α : Type} [Inhabited α] (xs ys : List α)
    (h : xs ≠ []) : (xs ++ ys).headI = xs.headI := by
  cases xs with
  | nil => exact absurd rfl h
  | cons a l => rfl

theorem month2_fixed (rate irm required bal mp ap : ℚ) :
    (month2 rate irm required bal mp ap).1.loan_start = bal ∧
    (month2 rate irm required bal mp ap).1.interest_rate_yearly = rate ∧
    (month2 rate irm required bal mp ap).1.interest = qtrunc (irm * bal) :=
  ⟨rfl, rfl, rfl⟩

theorem runMonths2_head (rate irm required : ℚ) (fuel : ℕ)
    (bal mp ap : ℚ) (ml : ℕ) :
    (runMonths2 rate irm required (fuel + 1) bal mp ap ml).rows ≠ [] ∧
    (runMonths2 rate irm required (fuel + 1) bal mp ap ml).rows.headI =
      (month2 rate irm required bal mp ap).1 := by
  simp only [runMonths2]
  split_ifs with h
  · exact ⟨by simp, rfl⟩
  · exact ⟨by simp, rfl⟩

/-- Loan of 100 over one year at 12% annual: both engines accept it;
the canonical engine retires it in exactly 12 months while the
truncating engine's running balance drifts by more than any
emission-time rounding. -/
def cfg9 : LoanConfig := ⟨100, 1, [12], 0, 0, false, 3, 0, 1, false, 12, 5⟩

unseal Rat.mul Rat.add Rat.inv Rat.sub in
/-- C9 counterexample: on `cfg9` both engines emit 12 rows, but the
canonical engine's final `loan_end` is exactly 0 while the truncating
variant's is 5 — and `5 ≠ qtrunc 0`, so the truncating variant is not
the canonical schedule with truncation applied at emission time (the
truncation feeds back into the running balance). -/
theorem C9_counterexample :
    (calculate_monthly_payment cfg9).map (fun rs => rs.length) = .ok 12 ∧
    (calculate2 cfg9).map (fun rs => rs.length) = .ok 12 ∧
    (calculate_monthly_payment cfg9).map
      (fun rs => (rs.getLastD dRow).loan_end) = .ok 0 ∧
    (calculate2 cfg9).map
      (fun rs => (rs.getLastD dRow2).loan_end) = .ok 5 ∧
    (5 : ℚ) ≠ qtrunc 0 :=
  ⟨rfl, rfl, rfl, rfl, by decide⟩

/-- C9 amended: with top-up disabled the two variants share validation
of the rate and refinance parameters, the rate-schedule derivation and
the annuity recurrence, and on a common valid input both schedules are
non-empty, start from the same balance (the principal) and apply the
same first-year rate, the truncating variant's first-row interest being
exactly the truncation of the canonical one; but because the truncating
variant truncates inside the loop and feeds the truncated values back
into the balance, the subsequent rows need not agree modulo rounding
(see the counterexample). -/
theorem C9_shared_start (cfg : LoanConfig) (hv : ValidConfig cfg)
    (ht : cfg.topup = false) (rows1 : List Row) (rows2 : List Row2)
    (h1 : calculate_monthly_payment cfg = .ok rows1)
    (h2 : calculate2 cfg = .ok rows2) :
    rows1 ≠ [] ∧ rows2 ≠ [] ∧
    rows1.headI.loan_start = cfg.loan ∧
    rows2.headI.loan_start = cfg.loan ∧
    rows1.headI.interest_rate_yearly = rows2.headI.interest_rate_yearly ∧
    rows2.headI.interest = qtrunc rows1.headI.interest := by
  -- the canonical engine's head row, via the master invariant
  obtain ⟨logs, -, hcalc, hlne, -, hlok, hlch⟩ := engine_master cfg hv
  obtain rfl := calculate_rows_eq h1 hcalc
  cases logs with
  | nil => exact absurd rfl hlne
  | cons log rest =>
    obtain ⟨hrate, -, hne', -, hchain', hrep, -⟩ := hlok log (by simp)
    have hidx : log.idx = 0 := hlch.1
    have hbs : log.balStart = cfg.loan := hlch.2.1
    have his : log.incStart = 0 := hlch.2.2.1
    have hhead : (rowsOf (log :: rest)).headI = log.rows.headI := by
      rw [rowsOf_cons]
      exact headI_append _ _ hne'
    obtain ⟨m, hm⟩ := hrep _ (headI_mem log.rows hne')
    have hls : log.rows.headI.loan_start = cfg.loan := by
      rw [RowChain_head hchain' hne', hbs]
    have hr2 : log.rate = yearRate (ratesExtended cfg) 0 0 := by
      rw [hrate, hidx, his]
    have hr1 : log.rows.headI.interest_rate_yearly = log.rate := by
      rw [hm]
      exact mkRow_rate cfg log.rate log.payment log.rows.headI.loan_start m
    have hi1 : log.rows.headI.interest =
        log.rate / 12 * log.rows.headI.loan_start := by
      have h' := mkRow_interest cfg log.rate log.payment
        log.rows.headI.loan_start m
      rw [← hm] at h'
      exact h'
    have hrne1 : rowsOf (log :: rest) ≠ [] :=
      rowsOf_ne_nil (by simp) (fun l hl => (hlok l hl).2.2.1)
    -- the truncating engine's head row, by unfolding its first month
    have hv2 : codeValid2 cfg := by
      obtain ⟨-, -, c3, c4, -, -, -, -, -, c10, -⟩ := hv
      exact ⟨c3, c4, c10⟩
    unfold calculate2 at h2
    rw [if_pos hv2] at h2
    obtain ⟨n, hy⟩ : ∃ n, cfg.years = n + 1 := by
      have := hv.2.1
      exact ⟨cfg.years - 1, by omega⟩
    rw [hy] at h2
    simp only [runYears2] at h2
    by_cases hd : yearNomi (yearRate (ratesExtended cfg) 0 0)
        ((n + 1) * 12) - 1 = 0
    · rw [if_pos hd] at h2
      exact absurd h2 (by simp)
    · rw [if_neg hd] at h2
      have h12 : (12 : ℕ) = 11 + 1 := rfl
      have hhead2 : rows2.headI =
          (month2 (yearRate (ratesExtended cfg) 0 0)
            (yearRate (ratesExtended cfg) 0 0 / 12)
            (yearPayment cfg.loan (yearRate (ratesExtended cfg) 0 0)
              ((n + 1) * 12))
            cfg.loan cfg.minimum_monthly_payment
            cfg.additional_payment).1 ∧ rows2 ≠ [] := by
        obtain ⟨hne2, hh2⟩ := runMonths2_head (yearRate (ratesExtended cfg) 0 0)
          (yearRate (ratesExtended cfg) 0 0 / 12)
          (yearPayment cfg.loan (yearRate (ratesExtended cfg) 0 0)
            ((n + 1) * 12)) 11 cfg.loan cfg.minimum_monthly_payment
          cfg.additional_payment ((n + 1) * 12)
        by_cases hb : (runMonths2 (yearRate (ratesExtended cfg) 0 0)
            (yearRate (ratesExtended cfg) 0 0 / 12)
            (yearPayment cfg.loan (yearRate (ratesExtended cfg) 0 0)
              ((n + 1) * 12)) 12 cfg.loan cfg.minimum_monthly_payment
            cfg.additional_payment ((n + 1) * 12)).bal ≤ 0
        · rw [if_pos hb] at h2
          have hr2eq := Except.ok.inj h2
          rw [← hr2eq]
          exact ⟨hh2, hne2⟩
        · rw [if_neg hb] at h2
          rcases hrec : runYears2 cfg (ratesExtended cfg) 1 n
              (runMonths2 (yearRate (ratesExtended cfg) 0 0)
                (yearRate (ratesExtended cfg) 0 0 / 12)
                (yearPayment cfg.loan (yearRate (ratesExtended cfg) 0 0)
                  ((n + 1) * 12)) 12 cfg.loan cfg.minimum_monthly_payment
                cfg.additional_payment ((n + 1) * 12)).bal
              (runMonths2 (yearRate (ratesExtended cfg) 0 0)
                (yearRate (ratesExtended cfg) 0 0 / 12)
                (yearPayment cfg.loan (yearRate (ratesExtended cfg) 0 0)
                  ((n + 1) * 12)) 12 cfg.loan cfg.minimum_monthly_payment
                cfg.additional_payment ((n + 1) * 12)).mp
              (runMonths2 (yearRate (ratesExtended cfg) 0 0)
                (yearRate (ratesExtended cfg) 0 0 / 12)
                (yearPayment cfg.loan (yearRate (ratesExtended cfg) 0 0)
                  ((n + 1) * 12)) 12 cfg.loan cfg.minimum_monthly_payment
                cfg.additional_payment ((n + 1) * 12)).ap
              (runMonths2 (yearRate (ratesExtended cfg) 0 0)
                (yearRate (ratesExtended cfg) 0 0 / 12)
                (yearPayment cfg.loan (yearRate (ratesExtended cfg) 0 0)
                  ((n + 1) * 12)) 12 cfg.loan cfg.minimum_monthly_payment
                cfg.additional_payment ((n + 1) * 12)).ml
              (if refinanceTrigger cfg 0
                  (runMonths2 (yearRate (ratesExtended cfg) 0 0)
                    (yearRate (ratesExtended cfg) 0 0 / 12)
                    (yearPayment cfg.loan (yearRate (ratesExtended cfg) 0 0)
                      ((n + 1) * 12)) 12 cfg.loan
                    cfg.minimum_monthly_payment
                    cfg.additional_payment ((n + 1) * 12)).bal
               then 0 + cfg.refinance_interest_will_increase else 0)
            with e | rest2
          · rw [hrec] at h2
            exact absurd h2 (by simp [Except.map])
          · rw [hrec] at h2
            have hr2eq := Except.ok.inj h2
            rw [← hr2eq]
            constructor
            · rw [headI_append _ _ hne2]
              exact hh2
            · intro hc
              rcases List.append_eq_nil.1 hc with ⟨ha, -⟩
              exact hne2 ha
      obtain ⟨hh2, hne2'⟩ := hhead2
      refine ⟨hrne1, hne2', ?_, ?_, ?_, ?_⟩
      · rw [hhead, hls]
      · rw [hh2]
        exact (month2_fixed _ _ _ _ _ _).1
      · rw [hhead, hh2, hr1, hr2]
        exact ((month2_fixed _ _ _ _ _ _).2.1).symm
      · rw [hhead, hh2, hi1, hls, hr2]
        exact (month2_fixed _ _ _ _ _ _).2.2

/-- The canonical schedule of `cfg9`. -/
def rows9 : List Row := (calculate_monthly_payment cfg9).toOption.getD []

/-- The truncating variant's schedule of `cfg9`. -/
def rows9t : List Row2 := (calculate2 cfg9).toOption.getD []

unseal Rat.mul Rat.add Rat.inv Rat.sub in
theorem calc9_ok : calculate_monthly_payment cfg9 = .ok rows9 := rfl

unseal Rat.mul Rat.add Rat.inv Rat.sub in
theorem calc9t_ok : calculate2 cfg9 = .ok rows9t := rfl

theorem C9_witness : rows9 ≠ [] ∧ rows9t ≠ [] ∧
    rows9.headI.loan_start = cfg9.loan ∧
    rows9t.headI.loan_start = cfg9.loan ∧
    rows9.headI.interest_rate_yearly = rows9t.headI.interest_rate_yearly ∧
    rows9t.headI.interest = qtrunc rows9.headI.interest :=
  C9_shared_start cfg9 (by decide) rfl rows9 rows9t calc9_ok calc9t_ok

end Mortgage
